import Mathlib

/-!
A shallow embedding of the SOUL tokeniser core
(`source/modules/soul_core/utilities/soul_Tokeniser.h`) together with proofs
about its literal-scanning behaviour.

The character stream is modelled at the codepoint level: `Input` is the list
of decoded characters still ahead of the cursor, so advancing the cursor is
`List.drop`/`List.tail` and a saved cursor position is a suffix of the source.
The `UTF8Reader` collaborator walks a null-terminated buffer and reads the
character 0 at the end of input; the list model renders this as `peek [] = 0`.
Fatal errors (`throwError`) are modelled with `Except Err`; the tokeniser
updates `location.location` before some throws purely for diagnostics, which
an `Except.error` result discards, so those writes are not modelled.
-/

namespace Soul

/-- Modelled from the spec: the closed set of fatal scanning errors of
section 7 (the `Errors::` message factories are not among the provided
sources; only the error identity matters here). -/
inductive Err where
  | identifierTooLong
  | illegalCharacter
  | noLeadingUnderscoreAllowed
  | unterminatedComment
  | integerLiteralTooLarge
  | integerLiteralTooLow
  | decimalDigitInOctal
  | noOctalLiterals
  | errorInNumericLiteral
  | unrecognisedLiteralSuffix
  | errorInEscapeCode
  | endOfInputInStringConstant
  deriving DecidableEq, Repr

/-- Token categories.  The C++ `TokenType` is an interned string compared by
content; each distinct token text used by the engine is one constructor.
`other` covers keyword/operator token types supplied by the pluggable
policies and `null` is the default-constructed `TokenType {}`. -/
inductive TokenType where
  | null
  | eof
  | literalInt32
  | literalInt64
  | literalFloat32
  | literalFloat64
  | literalString
  | identifier
  | other (text : List Nat)
  deriving DecidableEq, Repr

deriving instance DecidableEq for Except

/-- The input still ahead of a cursor, one decoded character per entry. -/
abbrev Input := List Nat

/-- Modelled from the spec: dereferencing the `UTF8Reader` cursor; at the end
of input it reads the character value 0 (section 6). -/
def peek (t : Input) : Nat := t.headD 0

/-- An ASCII decimal digit. -/
def isDigitChar (c : Nat) : Bool := 48 ≤ c && c ≤ 57

/-- Modelled from the spec: `UTF8Reader::isDigit`, whether the character at
the cursor is a decimal digit (section 6). -/
def isDigit (t : Input) : Bool := isDigitChar (peek t)

/-- Modelled from the spec: the `getHexDigitValue` helper used by hex literals
and `\u` escapes — digits `0`-`9`, `a`-`f`, `A`-`F` (sections 4.4 and 4.5),
`none` standing for the C++ return value -1. -/
def getHexDigitValue (c : Nat) : Option Nat :=
  if 48 ≤ c && c ≤ 57 then some (c - 48)
  else if 97 ≤ c && c ≤ 102 then some (c - 97 + 10)
  else if 65 ≤ c && c ≤ 70 then some (c - 65 + 10)
  else none

/-- Whether the pattern is a prefix of the input. -/
def startsWith : List Nat → Input → Bool
  | [], _ => true
  | _ :: _, [] => false
  | p :: ps, c :: cs => p == c && startsWith ps cs

/-- Modelled from the spec: `UTF8Reader::advanceIfStartsWith`, trying the
candidate literal prefixes in order and advancing past the first match
(section 6). -/
def advanceIf : List (List Nat) → Input → Option Input
  | [], _ => none
  | p :: ps, t => if startsWith p t then some (t.drop p.length) else advanceIf ps t

/-- Modelled from the spec: `UTF8Reader::find`, advancing to the next
occurrence of the pattern, or to the end of input when there is none
(section 6). -/
def findSub (pat : List Nat) : Input → Input
  | [] => []
  | c :: cs => if startsWith pat (c :: cs) then c :: cs else findSub pat cs

/-- The whitespace characters skipped between tokens. -/
def isWhitespaceChar (c : Nat) : Bool := c == 32 || c == 9 || c == 13 || c == 10

/-- Modelled from the spec: `UTF8Reader::findEndOfWhitespace` (section 6). -/
def findEndOfWhitespace : Input → Input
  | [] => []
  | c :: cs => if isWhitespaceChar c then findEndOfWhitespace cs else c :: cs

/-- Modelled from the spec: `UTF8Reader::getAndAdvance`; at the end of input
it reads the character 0 and the cursor stays put (section 6). -/
def getAndAdvance : Input → Nat × Input
  | [] => (0, [])
  | c :: cs => (c, cs)

/-- The mutable members of the scanning engine (spec section 3).
`locationLoc` is `location.location`, the recorded start of the current
token; `literalDoubleValue` is an exact rational, see `stodQ`. -/
structure St where
  input : Input
  locationLoc : Input
  currentType : TokenType
  literalIntValue : Int
  literalDoubleValue : ℚ
  currentStringValue : List Nat
  literalType : TokenType
  deriving DecidableEq, Repr

/-- The three pluggable grammar policies (the template parameters
`KeywordList`, `OperatorList`, `IdentifierMatcher`), modelled from the spec,
section 4.2.  `opMatch` reports the matched operator token together with the
number of characters it consumed. -/
structure Policy where
  isIdentifierStart : Nat → Bool
  isIdentifierBody : Nat → Bool
  keywordMatch : Nat → Input → Option TokenType
  opMatch : Input → Option (TokenType × Nat)

/-- The accumulator bound `std::numeric_limits<uint64_t>::max()`. -/
def u64Max : Nat := 18446744073709551615

/-- The cast `(int64_t) v` of an unsigned 64-bit value: two's-complement
wrap into the signed range. -/
def toInt64 (v : Nat) : Int :=
  if v < 9223372036854775808 then (v : Int) else (v : Int) - 18446744073709551616

/-- Two's-complement wrap of an integer into the `int64_t` range. -/
def wrap64 (x : Int) : Int :=
  (x + 9223372036854775808) % 18446744073709551616 - 9223372036854775808

/-- The `int64_t` negation `-literalIntValue` (line 177); mainstream compilers
wrap the one overflowing case `-INT64_MIN`. -/
def int64Neg (x : Int) : Int := wrap64 (-x)

/-- The digit-accumulation loop of `parseIntegerWithBase` (lines 311-334):
base-N accumulation with an overflow check before the multiply and another
before the add, returning the value, the digit count and the cursor after the
run.  Every digit classifier used by the tokeniser maps the end-of-input
character 0 to a stop, so the empty-input case is the loop's exit. -/
def intLoop (base : Nat) (gnd : Nat → Except Err (Option Nat)) :
    Input → Nat → Nat → Except Err (Nat × Nat × Input)
  | [], v, n =>
    match gnd 0 with
    | .error e => .error e
    | .ok _ => .ok (v, n, [])
  | c :: cs, v, n =>
    match gnd c with
    | .error e => .error e
    | .ok none => .ok (v, n, c :: cs)
    | .ok (some d) =>
      if v > u64Max / base then .error .integerLiteralTooLarge
      else if v * base > u64Max - d then .error .integerLiteralTooLarge
      else intLoop base gnd cs (v * base + d) (n + 1)

/-- `parseSuffixForIntLiteral` (lines 262-268): `i64`/`_i64`/`L`/`_L` give the
64-bit kind, `i32`/`_i32` or no suffix the 32-bit kind.  The character-code
lists spell those suffix texts. -/
def parseSuffixForIntLiteral (t : Input) : Input × TokenType :=
  match advanceIf [[105, 54, 52], [95, 105, 54, 52], [76], [95, 76]] t with
  | some t2 => (t2, .literalInt64)
  | none =>
    match advanceIf [[105, 51, 50], [95, 105, 51, 50]] t with
    | some t2 => (t2, .literalInt32)
    | none => (t, .literalInt32)

/-- `checkCharacterImmediatelyAfterLiteral` (lines 253-260): a digit or
identifier-body character immediately after a literal is fatal. -/
def checkCharacterImmediatelyAfterLiteral (pol : Policy) (s : St) :
    Except Err St :=
  if isDigit s.input || pol.isIdentifierBody (peek s.input) then
    .error .unrecognisedLiteralSuffix
  else .ok s

/-- `parseIntegerWithBase` (lines 308-344).  The boolean result mirrors the
C++ return value; `false` reports failure with the engine state untouched
(the loop ran on the local cursor `t` only). -/
def parseIntegerWithBase (base : Nat) (gnd : Nat → Except Err (Option Nat))
    (pol : Policy) (s : St) (t : Input) : Except Err (Bool × St) :=
  match intLoop base gnd t 0 0 with
  | .error e => .error e
  | .ok (v, numDigits, t2) =>
    if numDigits == 0 then .ok (false, s)
    else
      let st := parseSuffixForIntLiteral t2
      match checkCharacterImmediatelyAfterLiteral pol
          { s with input := st.1, literalIntValue := toInt64 v, literalType := st.2 } with
      | .error e => .error e
      | .ok s2 => .ok (true, s2)

/-- The decimal digit classifier lambda of `parseDecimalLiteral` (line 272). -/
def decDigitFn (c : Nat) : Except Err (Option Nat) :=
  if isDigitChar c then .ok (some (c - 48)) else .ok none

/-- The hex digit classifier of `parseHexLiteral` (line 280). -/
def hexDigitFn (c : Nat) : Except Err (Option Nat) :=
  match getHexDigitValue c with
  | some d => .ok (some d)
  | none => .ok none

/-- The binary digit classifier of `parseBinaryLiteral` (line 290). -/
def binDigitFn (c : Nat) : Except Err (Option Nat) :=
  if c == 48 then .ok (some 0) else if c == 49 then .ok (some 1) else .ok none

/-- The octal digit classifier of `parseOctalLiteral` (lines 300-305): the
digits `8`/`9` raise the "decimal digit in octal" error. -/
def octDigitFn (c : Nat) : Except Err (Option Nat) :=
  if 48 ≤ c && c ≤ 55 then .ok (some (c - 48))
  else if c == 56 || c == 57 then .error .decimalDigitInOctal
  else .ok none

/-- `parseDecimalLiteral` (lines 270-273). -/
def parseDecimalLiteral (pol : Policy) (s : St) : Except Err (Bool × St) :=
  parseIntegerWithBase 10 decDigitFn pol s s.input

/-- `parseHexLiteral` (lines 275-283): a `0x`/`0X` prefix, then base 16 from
the local cursor past the prefix. -/
def parseHexLiteral (pol : Policy) (s : St) : Except Err (Bool × St) :=
  match advanceIf [[48, 120], [48, 88]] s.input with
  | some t => parseIntegerWithBase 16 hexDigitFn pol s t
  | none => .ok (false, s)

/-- `parseBinaryLiteral` (lines 285-293): a `0b`/`0B` prefix, then base 2. -/
def parseBinaryLiteral (pol : Policy) (s : St) : Except Err (Bool × St) :=
  match advanceIf [[48, 98], [48, 66]] s.input with
  | some t => parseIntegerWithBase 2 binDigitFn pol s t
  | none => .ok (false, s)

/-- `parseOctalLiteral` (lines 295-306): `0` followed immediately by another
digit, parsed in base 8 from the `0` itself (the parse is reached only to be
rejected by the caller). -/
def parseOctalLiteral (pol : Policy) (s : St) : Except Err (Bool × St) :=
  if peek s.input == 48 && isDigit s.input.tail then
    parseIntegerWithBase 8 octDigitFn pol s s.input
  else .ok (false, s)

/-- `checkIntLiteralRange` (lines 239-251): a 32-bit literal above
`INT32_MAX = 2147483647` when positive, or above
`-(int64_t) INT32_MIN = 2147483648` when it is the to-be-negated result of
the `-digit` look-ahead, is fatal. -/
def checkIntLiteralRange (isNegative : Bool) (s : St) :
    Except Err (TokenType × St) :=
  if s.literalType == TokenType.literalInt32 then
    if isNegative && decide (s.literalIntValue > 2147483648) then
      .error .integerLiteralTooLow
    else if !isNegative && decide (s.literalIntValue > 2147483647) then
      .error .integerLiteralTooLarge
    else .ok (s.literalType, s)
  else .ok (s.literalType, s)

/-- Digits of a decimal run folded into a natural number (most significant
first), used to state what the scanners compute. -/
def natOfDecDigits (ds : List Nat) : Nat :=
  ds.foldl (fun a c => a * 10 + (c - 48)) 0

/-- Modelled from the spec: `std::stod` on the recognised float span with
exact rational decimal semantics ("standard decimal parsing semantics",
section 4.4); rounding to a 64-bit float is not modelled. -/
def stodQ (cs : List Nat) : ℚ :=
  let ip := cs.takeWhile isDigitChar
  let r1 := cs.dropWhile isDigitChar
  let fp := if peek r1 == 46 then (r1.drop 1).takeWhile isDigitChar else []
  let r2 := if peek r1 == 46 then (r1.drop 1).dropWhile isDigitChar else r1
  let mant : ℚ := (natOfDecDigits (ip ++ fp) : ℚ) / (10 : ℚ) ^ fp.length
  if peek r2 == 101 || peek r2 == 69 then
    let r3 := r2.drop 1
    let sgn : Int := if peek r3 == 45 then -1 else 1
    let r4 := if peek r3 == 45 || peek r3 == 43 then r3.drop 1 else r3
    mant * (10 : ℚ) ^ (sgn * (natOfDecDigits (r4.takeWhile isDigitChar) : Int))
  else mant

/-- `parseSuffixForFloatLiteral` (lines 346-352): `f64`/`_f64` force the
64-bit kind, `f32`/`_f32`/`f`/`_f` the 32-bit kind, no suffix 64-bit. -/
def parseSuffixForFloatLiteral (t : Input) : Input × TokenType :=
  match advanceIf [[102, 54, 52], [95, 102, 54, 52]] t with
  | some t2 => (t2, .literalFloat64)
  | none =>
    match advanceIf [[102, 51, 50], [95, 102, 51, 50], [102], [95, 102]] t with
    | some t2 => (t2, .literalFloat32)
    | none => (t, .literalFloat64)

/-- The success tail of `parseFloatLiteral` (lines 382-386): convert the
consumed span, advance the cursor past it, read the suffix, and check the
character that follows. -/
def floatFinish (pol : Policy) (s : St) (rest : Input) : Except Err (Bool × St) :=
  let span := s.input.take (s.input.length - rest.length)
  let st := parseSuffixForFloatLiteral rest
  match checkCharacterImmediatelyAfterLiteral pol
      { s with input := st.1, literalDoubleValue := stodQ span, literalType := st.2 } with
  | .error e => .error e
  | .ok s2 => .ok (true, s2)

/-- `parseFloatLiteral` (lines 354-387): an integer-digit run, an optional
point with fractional digits, then an optional signed exponent; at least one
digit and at least one of point/exponent are required, else failure with the
cursor untouched. -/
def parseFloatLiteral (pol : Policy) (s : St) : Except Err (Bool × St) :=
  let t1 := s.input.dropWhile isDigitChar
  let n1 := (s.input.takeWhile isDigitChar).length
  let hasPoint := peek t1 == 46
  let t2 := if hasPoint then (t1.drop 1).dropWhile isDigitChar else t1
  let numDigits := n1 + if hasPoint then ((t1.drop 1).takeWhile isDigitChar).length else 0
  if numDigits == 0 then .ok (false, s)
  else
    let hasExponent := peek t2 == 101 || peek t2 == 69
    if hasExponent then
      let t3 := t2.drop 1
      let t4 := if peek t3 == 43 || peek t3 == 45 then t3.drop 1 else t3
      if ! isDigit t4 then .ok (false, s)
      else floatFinish pol s (t4.dropWhile isDigitChar)
    else if ! hasPoint then .ok (false, s)
    else floatFinish pol s t2

/-- `parseNumericLiteral` (lines 227-237): the fixed sub-scanner priority
hex, float, octal (recognised only to be rejected), binary, decimal; a failed
sub-scanner hands the untouched state to the next one. -/
def parseNumericLiteral (pol : Policy) (isNegative : Bool) (s : St) :
    Except Err (TokenType × St) :=
  match parseHexLiteral pol s with
  | .error e => .error e
  | .ok (true, s1) => checkIntLiteralRange isNegative s1
  | .ok (false, s1) =>
    match parseFloatLiteral pol s1 with
    | .error e => .error e
    | .ok (true, s2) => .ok (s2.literalType, s2)
    | .ok (false, s2) =>
      match parseOctalLiteral pol s2 with
      | .error e => .error e
      | .ok (true, _) => .error .noOctalLiterals
      | .ok (false, s3) =>
        match parseBinaryLiteral pol s3 with
        | .error e => .error e
        | .ok (true, s4) => checkIntLiteralRange isNegative s4
        | .ok (false, s4) =>
          match parseDecimalLiteral pol s4 with
          | .error e => .error e
          | .ok (true, s5) => checkIntLiteralRange isNegative s5
          | .ok (false, _) => .error .errorInNumericLiteral

/-- `appendUTF8` (lines 454-479): the bytes appended to the string buffer for
one decoded character; the `(char)` casts are modelled as truncation mod 256. -/
def utf8Encode (c : Nat) : List Nat :=
  if c ≥ 128 then
    let n := if c ≥ 2048 then (if c ≥ 65536 then 3 else 2) else 1
    (((255 <<< (7 - n)) ||| (c >>> (n * 6))) % 256) ::
      (List.range n).reverse.map (fun i => 128 ||| (63 &&& (c >>> (i * 6))))
  else [c]

/-- The `\u` arm of the escape switch (lines 422-440): exactly four hex
digits folded into a 16-bit codepoint; a non-hex character is fatal. -/
def readHex4 : Nat → Nat → Input → Except Err (Nat × Input)
  | acc, 0, cs => .ok (acc, cs)
  | acc, k + 1, cs =>
    let p := getAndAdvance cs
    match getHexDigitValue p.1 with
    | none => .error .errorInEscapeCode
    | some d => readHex4 (acc * 16 + d) k p.2

/-- The escape `switch` of `parseStringLiteral` (lines 404-441): pass-through
for quotes, backslash and slash; the control-character substitutions; `\u`;
and — there being no `default` case — any other character kept unchanged.
The empty case is `getAndAdvance` reading the character 0 at the end of
input, which falls through the switch unchanged. -/
def readEscape : Input → Except Err (Nat × Input)
  | [] => .ok (0, [])
  | c :: rest =>
    if c == 34 || c == 39 || c == 92 || c == 47 then .ok (c, rest)
    else if c == 97 then .ok (7, rest)
    else if c == 98 then .ok (8, rest)
    else if c == 102 then .ok (12, rest)
    else if c == 110 then .ok (10, rest)
    else if c == 114 then .ok (13, rest)
    else if c == 116 then .ok (9, rest)
    else if c == 117 then readHex4 0 4 rest
    else .ok (c, rest)

theorem readHex4_length_le (acc k : Nat) (cs : Input) (c2 : Nat) (cs2 : Input)
    (h : readHex4 acc k cs = .ok (c2, cs2)) : cs2.length ≤ cs.length := by
  induction k generalizing acc cs with
  | zero =>
    simp only [readHex4] at h
    cases h
    exact le_rfl
  | succ k ih =>
    simp only [readHex4] at h
    cases cs with
    | nil =>
      simp only [getAndAdvance, getHexDigitValue] at h
      exact absurd h (by simp)
    | cons a as =>
      simp only [getAndAdvance] at h
      cases hd : getHexDigitValue a with
      | none => rw [hd] at h; exact absurd h (by simp)
      | some d =>
        rw [hd] at h
        exact le_trans (ih _ _ h) (Nat.le_succ _)

theorem readEscape_length_le (cs : Input) (c2 : Nat) (cs2 : Input)
    (h : readEscape cs = .ok (c2, cs2)) : cs2.length ≤ cs.length := by
  cases cs with
  | nil =>
    simp only [readEscape] at h
    cases h
    exact le_rfl
  | cons a as =>
    simp only [readEscape] at h
    split_ifs at h with h1 h2 h3 h4 h5 h6 h7 h8
    all_goals
      first
        | (cases h; exact Nat.le_succ _)
        | exact le_trans (readHex4_length_le _ _ _ _ _ h) (Nat.le_succ _)

/-- The accumulation loop of `parseStringLiteral` (lines 397-448): consume a
character, stop at the closing quote, process a backslash escape, and treat a
decoded character value 0 — reading past the end of input included — as the
"end of input in string constant" error; every accepted character is appended
UTF-8-encoded.  The single C++ `c == 0` test sits after the escape switch;
here it appears once on each of the two paths to it. -/
def strLoop (q : Nat) : Input → List Nat → Except Err (Input × List Nat)
  | [], _ => .error .endOfInputInStringConstant
  | c :: cs, acc =>
    if c == q then .ok (cs, acc)
    else if c == 92 then
      match h : readEscape cs with
      | .error e => .error e
      | .ok (c2, cs2) =>
        if c2 == 0 then .error .endOfInputInStringConstant
        else strLoop q cs2 (acc ++ utf8Encode c2)
    else if c == 0 then .error .endOfInputInStringConstant
    else strLoop q cs (acc ++ utf8Encode c)
termination_by cs _ => cs.length
decreasing_by
  · exact Nat.lt_succ_of_le (readEscape_length_le _ _ _ h)
  · exact Nat.lt_succ_of_le le_rfl

/-- `parseStringLiteral` (lines 389-452): triggered on `"` or `'`, closing on
the same quote; on success the decoded bytes replace `currentStringValue` and
the usual character-after-literal check runs. -/
def parseStringLiteral (pol : Policy) (quoteChar : Nat) (s : St) :
    Except Err (Bool × St) :=
  if quoteChar != 34 && quoteChar != 39 then .ok (false, s)
  else
    match strLoop quoteChar s.input.tail [] with
    | .error e => .error e
    | .ok (inp, str) =>
      match checkCharacterImmediatelyAfterLiteral pol
          { s with input := inp, currentStringValue := str } with
      | .error e => .error e
      | .ok s2 => .ok (true, s2)

/-- The identifier-run loop of `matchNextToken` (lines 148-153): `end` starts
at the cursor and pre-increments before each body test, so on exit it sits on
the first non-body character; exceeding `maxIdentifierLength = 256` is fatal.
The empty case is the end of input, whose character 0 no sane body classifier
accepts. -/
def identLoop (pol : Policy) : Input → Nat → Except Err (Input × Nat)
  | [], len => .ok ([], len)
  | _ :: ts, len =>
    if pol.isIdentifierBody (peek ts) then
      if len + 1 > 256 then .error .identifierTooLong
      else identLoop pol ts (len + 1)
    else .ok (ts, len)

theorem findEndOfWhitespace_length_le (t : Input) :
    (findEndOfWhitespace t).length ≤ t.length := by
  induction t with
  | nil => simp [findEndOfWhitespace]
  | cons c cs ih =>
    simp only [findEndOfWhitespace]
    split
    · exact le_trans ih (Nat.le_succ _)
    · exact le_rfl

theorem findSub_length_le (pat : List Nat) (t : Input) :
    (findSub pat t).length ≤ t.length := by
  induction t with
  | nil => simp [findSub]
  | cons c cs ih =>
    simp only [findSub]
    split
    · exact le_rfl
    · exact le_trans ih (Nat.le_succ _)

theorem length_pos_of_peek_eq (t : Input) (c : Nat) (h : peek t = c)
    (hc : 0 < c) : 0 < t.length := by
  cases t with
  | nil =>
    simp only [peek, List.headD] at h
    exact absurd hc (by omega)
  | cons a b => simp

theorem findSub_newline_lt (t : Input) (h : peek t = 47) :
    (findSub [10] t).length < t.length := by
  cases t with
  | nil => simp [peek] at h
  | cons c cs =>
    simp only [peek, List.headD] at h
    subst h
    have hs : findSub [10] (47 :: cs) = findSub [10] cs := by
      simp [findSub, startsWith]
    rw [hs]
    exact Nat.lt_succ_of_le (findSub_length_le _ _)

/-- `skipWhitespaceAndComments` (lines 202-225): skip whitespace, then `//`
line comments to the newline and `/* ... */` block comments past the first
terminator (a missing terminator is fatal), repeating until neither form is
at the cursor. -/
def skipWS (t : Input) : Except Err Input :=
  let t1 := findEndOfWhitespace t
  if h1 : peek t1 == 47 && peek t1.tail == 47 then
    skipWS (findSub [10] t1)
  else if h2 : peek t1 == 47 && peek t1.tail == 42 then
    let t2 := findSub [42, 47] (t1.drop 2)
    if peek t2 == 0 then .error .unterminatedComment
    else skipWS (t2.drop 2)
  else .ok t1
termination_by t.length
decreasing_by
  · simp only [Bool.and_eq_true, beq_iff_eq] at h1
    exact lt_of_lt_of_le (findSub_newline_lt _ h1.1)
      (findEndOfWhitespace_length_le t)
  · simp only [Bool.and_eq_true, beq_iff_eq] at h2
    have hw : 0 < (findEndOfWhitespace t).length :=
      length_pos_of_peek_eq _ 47 h2.1 (by norm_num)
    have hb : (findSub [42, 47] ((findEndOfWhitespace t).drop 2)).length
        ≤ ((findEndOfWhitespace t).drop 2).length := findSub_length_le _ _
    have h3 : (findEndOfWhitespace t).length ≤ t.length :=
      findEndOfWhitespace_length_le t
    simp only [List.length_drop] at hb ⊢
    omega

/-- `matchNextToken` (lines 144-200): the dispatch order — identifier run
(keyword or identifier), numeric literal on a digit, the `-digit` look-ahead
with in-place negation, string literal, float after a leading `.`, operator
table, the leading-underscore rejection, illegal character, end of input. -/
def matchNextToken (pol : Policy) (s : St) : Except Err (TokenType × St) :=
  if pol.isIdentifierStart (peek s.input) then
    match identLoop pol s.input 1 with
    | .error e => .error e
    | .ok (endPos, len) =>
      match pol.keywordMatch len s.input with
      | some kw => .ok (kw, { s with input := s.input.drop len })
      | none =>
        .ok (.identifier, { s with
                            input := endPos,
                            currentStringValue := s.input.take len })
  else if isDigit s.input then
    parseNumericLiteral pol false s
  else if peek s.input == 45 && isDigit s.input.tail then
    match parseNumericLiteral pol true { s with input := s.input.tail } with
    | .error e => .error e
    | .ok (tok, s1) =>
      if tok == TokenType.literalInt32 || tok == TokenType.literalInt64 then
        .ok (tok, { s1 with literalIntValue := int64Neg s1.literalIntValue })
      else
        .ok (tok, { s1 with literalDoubleValue := -s1.literalDoubleValue })
  else
    match parseStringLiteral pol (peek s.input) s with
    | .error e => .error e
    | .ok (true, s1) => .ok (.literalString, s1)
    | .ok (false, s1) =>
      if peek s1.input == 46 then
        match parseFloatLiteral pol s1 with
        | .error e => .error e
        | .ok (true, s2) => .ok (s2.literalType, s2)
        | .ok (false, s2) => matchRest pol s2
      else matchRest pol s1
where
  -- The tail of the dispatch after the literal forms: operator table,
  -- leading-underscore rejection, illegal character, end of input
  -- (lines 190-199).
  matchRest (pol : Policy) (s : St) : Except Err (TokenType × St) :=
    match pol.opMatch s.input with
    | some (op, len) => .ok (op, { s with input := s.input.drop len })
    | none =>
      if peek s.input == 95 && pol.isIdentifierBody (peek s.input.tail) then
        .error .noLeadingUnderscoreAllowed
      else if peek s.input != 0 then .error .illegalCharacter
      else .ok (.eof, s)

/-- `skip` (lines 86-93): skip whitespace/comments, record the token start in
`location.location`, scan one token, and return the previous token's type
alongside the new engine state. -/
def skip (pol : Policy) (s : St) : Except Err (TokenType × St) :=
  match skipWS s.input with
  | .error e => .error e
  | .ok inp =>
    match matchNextToken pol { s with input := inp, locationLoc := inp } with
    | .error e => .error e
    | .ok (t, s1) => .ok (s.currentType, { s1 with currentType := t })

/-- `getCurrentTokeniserPosition` (line 95). -/
def getCurrentTokeniserPosition (s : St) : Input := s.locationLoc

/-- `resetPosition` (line 96): move the cursor and re-scan. -/
def resetPosition (pol : Policy) (newPos : Input) (s : St) :
    Except Err (TokenType × St) :=
  skip pol { s with input := newPos }

/-- A fresh engine state over the given input, fields at their constructed
defaults. -/
def mkSt (t : Input) : St :=
  { input := t, locationLoc := t, currentType := .null, literalIntValue := 0,
    literalDoubleValue := 0, currentStringValue := [], literalType := .null }

/-- A concrete policy instance for evaluating the engine on closed inputs:
ASCII letters start identifiers, letters/digits/underscore continue them,
there are no keywords, and the operator table holds the single operator `-`. -/
def defaultPolicy : Policy where
  isIdentifierStart c := (65 ≤ c && c ≤ 90) || (97 ≤ c && c ≤ 122)
  isIdentifierBody c :=
    (65 ≤ c && c ≤ 90) || (97 ≤ c && c ≤ 122) || (48 ≤ c && c ≤ 57) || c == 95
  keywordMatch _ _ := none
  opMatch t := if peek t == 45 then some (.other [45], 1) else none

/-! ### Behaviour of the base-N accumulation loop -/

/-- The base-N value of a digit run under a digit-value assignment, most
significant digit first: what `parseIntegerWithBase` accumulates. -/
def fromDigits (base : Nat) (dv : Nat → Nat) (ds : List Nat) : Nat :=
  ds.foldl (fun a c => a * base + dv c) 0

theorem foldl_digits_le (base : Nat) (dv : Nat → Nat) (hbase : 0 < base)
    (ds : List Nat) (v : Nat) :
    v ≤ ds.foldl (fun a c => a * base + dv c) v := by
  induction ds generalizing v with
  | nil => simp
  | cons d ds ih =>
    simp only [List.foldl_cons]
    refine le_trans ?_ (ih _)
    have hv : v ≤ v * base := Nat.le_mul_of_pos_right v hbase
    omega

theorem intLoop_ok (base : Nat) (gnd : Nat → Except Err (Option Nat))
    (dv : Nat → Nat) (hbase : 0 < base) (ds rest : Input) (v n : Nat)
    (hds : ∀ c ∈ ds, gnd c = .ok (some (dv c)))
    (hrest : gnd (peek rest) = .ok none)
    (hle : ds.foldl (fun a c => a * base + dv c) v ≤ u64Max) :
    intLoop base gnd (ds ++ rest) v n =
      .ok (ds.foldl (fun a c => a * base + dv c) v, n + ds.length, rest) := by
  induction ds generalizing v n with
  | nil =>
    cases rest with
    | nil =>
      have h0 : gnd 0 = .ok none := hrest
      simp [intLoop, h0]
    | cons r rs =>
      have hr : gnd r = .ok none := hrest
      simp [intLoop, hr]
  | cons d ds ih =>
    have hd := hds d (by simp)
    have hstep : v * base + dv d ≤ u64Max := by
      have ha : v * base + dv d ≤
          List.foldl (fun a c => a * base + dv c) (v * base + dv d) ds :=
        foldl_digits_le base dv hbase ds _
      have hb : List.foldl (fun a c => a * base + dv c) v (d :: ds) =
          List.foldl (fun a c => a * base + dv c) (v * base + dv d) ds := by
        simp [List.foldl_cons]
      omega
    have hc1 : ¬ v > u64Max / base := by
      have hm : v * base ≤ u64Max := by omega
      have := (Nat.le_div_iff_mul_le hbase).mpr hm
      omega
    have hc2 : ¬ v * base > u64Max - dv d := by omega
    simp only [List.cons_append, intLoop, hd, if_neg hc1, if_neg hc2,
      List.append_eq]
    rw [ih (v * base + dv d) (n + 1) (fun c hc => hds c (by simp [hc]))
      (by simpa using hle)]
    have harith : n + 1 + ds.length = n + (ds.length + 1) := by omega
    simp [List.foldl_cons, List.length_cons, harith]

theorem intLoop_overflow (base : Nat) (gnd : Nat → Except Err (Option Nat))
    (dv : Nat → Nat) (hbase : 0 < base) (ds rest : Input) (v n : Nat)
    (hds : ∀ c ∈ ds, gnd c = .ok (some (dv c)))
    (hdv : ∀ c ∈ ds, dv c ≤ u64Max)
    (hvle : v ≤ u64Max)
    (hgt : u64Max < ds.foldl (fun a c => a * base + dv c) v) :
    intLoop base gnd (ds ++ rest) v n = .error .integerLiteralTooLarge := by
  induction ds generalizing v n with
  | nil => simp at hgt; omega
  | cons d ds ih =>
    have hd := hds d (by simp)
    have hdd : dv d ≤ u64Max := hdv d (by simp)
    by_cases hc1 : v > u64Max / base
    · simp [List.cons_append, intLoop, hd, if_pos hc1]
    · have hvb : v * base ≤ u64Max := (Nat.le_div_iff_mul_le hbase).mp
        (le_of_not_lt hc1)
      by_cases hc2 : v * base > u64Max - dv d
      · simp [List.cons_append, intLoop, hd, if_neg hc1, if_pos hc2]
      · have hnext : v * base + dv d ≤ u64Max := by omega
        simp only [List.cons_append, intLoop, hd, if_neg hc1, if_neg hc2,
          List.append_eq]
        exact ih _ _ (fun c hc => hds c (by simp [hc]))
          (fun c hc => hdv c (by simp [hc])) hnext (by simpa using hgt)

theorem intLoop_count_ge (base : Nat) (gnd : Nat → Except Err (Option Nat))
    (t : Input) (v n v2 n2 : Nat) (t2 : Input)
    (h : intLoop base gnd t v n = .ok (v2, n2, t2)) : n ≤ n2 := by
  induction t generalizing v n with
  | nil =>
    cases hg : gnd 0 with
    | error e => simp [intLoop, hg] at h
    | ok o => simp only [intLoop, hg] at h; cases h; exact le_rfl
  | cons c cs ih =>
    cases hg : gnd c with
    | error e => simp [intLoop, hg] at h
    | ok o =>
      cases o with
      | none => simp only [intLoop, hg] at h; cases h; exact le_rfl
      | some d =>
        simp only [intLoop, hg] at h
        split_ifs at h
        exact le_trans (Nat.le_succ n) (ih _ _ h)

/-! ### Sub-scanner characterizations -/

theorem toInt64_small (v : Nat) (h : v < 9223372036854775808) :
    toInt64 v = (v : Int) := by
  simp [toInt64, h]

theorem getHexDigitValue_le (c v : Nat) (h : getHexDigitValue c = some v) :
    v ≤ 15 := by
  unfold getHexDigitValue at h
  split_ifs at h with h1 h2 h3 <;>
    simp only [Option.some.injEq] at h <;>
    simp only [Bool.and_eq_true, decide_eq_true_eq] at * <;>
    omega

theorem takeWhile_digits (ds rest : Input)
    (hds : ∀ c ∈ ds, isDigitChar c = true)
    (hr : isDigitChar (peek rest) = false) :
    (ds ++ rest).takeWhile isDigitChar = ds ∧
      (ds ++ rest).dropWhile isDigitChar = rest := by
  induction ds with
  | nil =>
    cases rest with
    | nil => simp
    | cons r rs =>
      simp only [peek, List.headD] at hr
      simp [List.takeWhile, List.dropWhile, hr]
  | cons d ds ih =>
    have hd := hds d (by simp)
    have := ih (fun c hc => hds c (by simp [hc]))
    simp [List.takeWhile, List.dropWhile, hd, this.1, this.2]

theorem parseHexLiteral_noPrefix (pol : Policy) (s : St)
    (h : advanceIf [[48, 120], [48, 88]] s.input = none) :
    parseHexLiteral pol s = .ok (false, s) := by
  simp [parseHexLiteral, h]

theorem parseBinaryLiteral_noPrefix (pol : Policy) (s : St)
    (h : advanceIf [[48, 98], [48, 66]] s.input = none) :
    parseBinaryLiteral pol s = .ok (false, s) := by
  simp [parseBinaryLiteral, h]

theorem parseOctalLiteral_noShape (pol : Policy) (s : St)
    (h : (peek s.input == 48 && isDigit s.input.tail) = false) :
    parseOctalLiteral pol s = .ok (false, s) := by
  simp [parseOctalLiteral, h]

theorem hexPrefix_fail_of_ne (d : Nat) (rest : Input) (h120 : d ≠ 120)
    (h88 : d ≠ 88) :
    advanceIf [[48, 120], [48, 88]] (48 :: d :: rest) = none := by
  simp [advanceIf, startsWith, h120, h88, Ne.symm h120, Ne.symm h88]

theorem binPrefix_fail_of_ne (d : Nat) (rest : Input) (h98 : d ≠ 98)
    (h66 : d ≠ 66) :
    advanceIf [[48, 98], [48, 66]] (48 :: d :: rest) = none := by
  simp [advanceIf, startsWith, h98, h66, Ne.symm h98, Ne.symm h66]

theorem hexPrefix_fail_head (d : Nat) (rest : Input) (h : d ≠ 48) :
    advanceIf [[48, 120], [48, 88]] (d :: rest) = none := by
  simp [advanceIf, startsWith, Ne.symm h]

theorem binPrefix_fail_head (d : Nat) (rest : Input) (h : d ≠ 48) :
    advanceIf [[48, 98], [48, 66]] (d :: rest) = none := by
  simp [advanceIf, startsWith, Ne.symm h]

/-- A digit run followed by none of `.`, `e`, `E` and no further digit is not
a float: `parseFloatLiteral` fails with the state untouched. -/
theorem parseFloatLiteral_digitsOnly (pol : Policy) (s : St) (ds rest : Input)
    (hin : s.input = ds ++ rest) (hne : ds ≠ [])
    (hds : ∀ c ∈ ds, isDigitChar c = true)
    (hrd : isDigitChar (peek rest) = false)
    (h46 : peek rest ≠ 46) (h101 : peek rest ≠ 101) (h69 : peek rest ≠ 69) :
    parseFloatLiteral pol s = .ok (false, s) := by
  have htw := takeWhile_digits ds rest hds hrd
  have hp : (peek rest == 46) = false := by simp [h46]
  have h101b : (peek rest == 101) = false := by simp [h101]
  have h69b : (peek rest == 69) = false := by simp [h69]
  have hlen : ds.length ≠ 0 := by
    cases ds with
    | nil => exact absurd rfl hne
    | cons a b => simp
  simp [parseFloatLiteral, hin, htw.1, htw.2, hp, h101b, h69b, hlen]

theorem checkChar_input_nil (pol : Policy) (s : St) (hinp : s.input = [])
    (hbody : pol.isIdentifierBody 0 = false) :
    checkCharacterImmediatelyAfterLiteral pol s = .ok s := by
  unfold checkCharacterImmediatelyAfterLiteral
  rw [if_neg]
  rw [hinp]
  simp [isDigit, peek, isDigitChar, hbody]

/-- A recognised digit run whose suffix consumes the whole remaining text
scans successfully with the literal kind of that suffix. -/
theorem parseIntegerWithBase_digits (base : Nat)
    (gnd : Nat → Except Err (Option Nat)) (dv : Nat → Nat) (hbase : 0 < base)
    (pol : Policy) (s : St) (ds rest : Input) (ty : TokenType)
    (hne : ds ≠ [])
    (hds : ∀ c ∈ ds, gnd c = .ok (some (dv c)))
    (hrest : gnd (peek rest) = .ok none)
    (hsuffix : parseSuffixForIntLiteral rest = ([], ty))
    (hbody : pol.isIdentifierBody 0 = false)
    (hle : fromDigits base dv ds ≤ u64Max) :
    parseIntegerWithBase base gnd pol s (ds ++ rest) =
      .ok (true,
        { s with
          input := [],
          literalIntValue := toInt64 (fromDigits base dv ds),
          literalType := ty }) := by
  have hloop := intLoop_ok base gnd dv hbase ds rest 0 0 hds hrest hle
  have hlen : (0 + ds.length == 0) = false := by
    cases ds with
    | nil => exact absurd rfl hne
    | cons a b => simp
  simp only [parseIntegerWithBase, hloop, hlen, if_false, Bool.false_eq_true,
    hsuffix]
  rw [checkChar_input_nil pol _ rfl hbody]
  rfl

theorem checkChar_error (pol : Policy) (s : St) (e : Err)
    (h : checkCharacterImmediatelyAfterLiteral pol s = .error e) :
    e = .unrecognisedLiteralSuffix := by
  unfold checkCharacterImmediatelyAfterLiteral at h
  split_ifs at h <;> simp_all

theorem octDigitFn_error (c : Nat) (e : Err) (h : octDigitFn c = .error e) :
    e = .decimalDigitInOctal := by
  unfold octDigitFn at h
  split_ifs at h <;> simp_all

theorem intLoop_oct_error (t : Input) (v n : Nat) (e : Err)
    (h : intLoop 8 octDigitFn t v n = .error e) :
    e = .decimalDigitInOctal ∨ e = .integerLiteralTooLarge := by
  induction t generalizing v n with
  | nil =>
    have h0 : octDigitFn 0 = .ok none := by decide
    simp [intLoop, h0] at h
  | cons c cs ih =>
    cases hg : octDigitFn c with
    | error e2 =>
      simp only [intLoop, hg, Except.error.injEq] at h
      exact h ▸ Or.inl (octDigitFn_error c e2 hg)
    | ok o =>
      cases o with
      | none => simp [intLoop, hg] at h
      | some d =>
        simp only [intLoop, hg] at h
        split_ifs at h with c1 c2
        · simp only [Except.error.injEq] at h
          exact h ▸ Or.inr rfl
        · simp only [Except.error.injEq] at h
          exact h ▸ Or.inr rfl
        · exact ih _ _ h

/-! ### Failure leaves the engine state untouched -/

theorem floatFinish_true (pol : Policy) (s : St) (rest : Input) (b : Bool)
    (s2 : St) (h : floatFinish pol s rest = .ok (b, s2)) : b = true := by
  simp only [floatFinish] at h
  cases hcc : checkCharacterImmediatelyAfterLiteral pol
      { s with
        input := (parseSuffixForFloatLiteral rest).1,
        literalDoubleValue := stodQ (s.input.take (s.input.length - rest.length)),
        literalType := (parseSuffixForFloatLiteral rest).2 } with
  | error e => simp [hcc] at h
  | ok s3 =>
    simp only [hcc, Except.ok.injEq, Prod.mk.injEq] at h
    first
      | exact h.1.symm
      | exact h.1

theorem parseFloatLiteral_false (pol : Policy) (s : St) (s2 : St)
    (h : parseFloatLiteral pol s = .ok (false, s2)) : s2 = s := by
  simp only [parseFloatLiteral] at h
  split_ifs at h <;>
    first
      | (cases h; rfl)
      | exact absurd (floatFinish_true _ _ _ _ _ h) (by simp)

theorem parseIntegerWithBase_false (base : Nat)
    (gnd : Nat → Except Err (Option Nat)) (pol : Policy) (s : St) (t : Input)
    (s2 : St) (h : parseIntegerWithBase base gnd pol s t = .ok (false, s2)) :
    s2 = s := by
  cases hl : intLoop base gnd t 0 0 with
  | error e => simp [parseIntegerWithBase, hl] at h
  | ok trip =>
    obtain ⟨v, nd, t2⟩ := trip
    simp only [parseIntegerWithBase, hl] at h
    split_ifs at h with hz
    · cases h; rfl
    · cases hcc : checkCharacterImmediatelyAfterLiteral pol
          { s with
            input := (parseSuffixForIntLiteral t2).1,
            literalIntValue := toInt64 v,
            literalType := (parseSuffixForIntLiteral t2).2 } with
      | error e => simp [hcc] at h
      | ok s3 => simp [hcc] at h

theorem parseHexLiteral_false (pol : Policy) (s : St) (s2 : St)
    (h : parseHexLiteral pol s = .ok (false, s2)) : s2 = s := by
  unfold parseHexLiteral at h
  cases ha : advanceIf [[48, 120], [48, 88]] s.input with
  | none => rw [ha] at h; cases h; rfl
  | some t => rw [ha] at h; exact parseIntegerWithBase_false _ _ _ _ _ _ h

theorem parseBinaryLiteral_false (pol : Policy) (s : St) (s2 : St)
    (h : parseBinaryLiteral pol s = .ok (false, s2)) : s2 = s := by
  unfold parseBinaryLiteral at h
  cases ha : advanceIf [[48, 98], [48, 66]] s.input with
  | none => rw [ha] at h; cases h; rfl
  | some t => rw [ha] at h; exact parseIntegerWithBase_false _ _ _ _ _ _ h

theorem parseOctalLiteral_false (pol : Policy) (s : St) (s2 : St)
    (h : parseOctalLiteral pol s = .ok (false, s2)) : s2 = s := by
  unfold parseOctalLiteral at h
  split_ifs at h
  · exact parseIntegerWithBase_false _ _ _ _ _ _ h
  · cases h; rfl

theorem parseDecimalLiteral_false (pol : Policy) (s : St) (s2 : St)
    (h : parseDecimalLiteral pol s = .ok (false, s2)) : s2 = s :=
  parseIntegerWithBase_false _ _ _ _ _ _ h

theorem parseStringLiteral_false (pol : Policy) (q : Nat) (s : St) (s2 : St)
    (h : parseStringLiteral pol q s = .ok (false, s2)) : s2 = s := by
  unfold parseStringLiteral at h
  split_ifs at h with hq
  · cases h; rfl
  · cases hl : strLoop q s.input.tail [] with
    | error e => simp [hl] at h
    | ok pr =>
      obtain ⟨inp, str⟩ := pr
      simp only [hl] at h
      cases hcc : checkCharacterImmediatelyAfterLiteral pol
          { s with input := inp, currentStringValue := str } with
      | error e => simp [hcc] at h
      | ok s3 => simp [hcc] at h

theorem checkChar_ok (pol : Policy) (s s2 : St)
    (h : checkCharacterImmediatelyAfterLiteral pol s = .ok s2) : s2 = s := by
  unfold checkCharacterImmediatelyAfterLiteral at h
  split_ifs at h <;> simp_all

theorem parseSuffixForFloatLiteral_type (t : Input) :
    (parseSuffixForFloatLiteral t).2 = TokenType.literalFloat64 ∨
      (parseSuffixForFloatLiteral t).2 = TokenType.literalFloat32 := by
  unfold parseSuffixForFloatLiteral
  cases advanceIf [[102, 54, 52], [95, 102, 54, 52]] t with
  | some t2 => exact Or.inl rfl
  | none =>
    cases advanceIf [[102, 51, 50], [95, 102, 51, 50], [102], [95, 102]] t with
    | some t2 => exact Or.inr rfl
    | none => exact Or.inl rfl

theorem floatFinish_type (pol : Policy) (s : St) (rest : Input) (b : Bool)
    (s2 : St) (h : floatFinish pol s rest = .ok (b, s2)) :
    s2.literalType = TokenType.literalFloat64 ∨
      s2.literalType = TokenType.literalFloat32 := by
  simp only [floatFinish] at h
  cases hcc : checkCharacterImmediatelyAfterLiteral pol
      { s with
        input := (parseSuffixForFloatLiteral rest).1,
        literalDoubleValue := stodQ (s.input.take (s.input.length - rest.length)),
        literalType := (parseSuffixForFloatLiteral rest).2 } with
  | error e => simp [hcc] at h
  | ok s3 =>
    simp only [hcc, Except.ok.injEq, Prod.mk.injEq] at h
    have h3 := checkChar_ok pol _ _ hcc
    have hs : s2 = s3 := by
      rcases h with ⟨h1, h2⟩
      first
        | exact h2.symm
        | exact h2
    rw [hs, h3]
    exact parseSuffixForFloatLiteral_type rest

theorem parseFloatLiteral_true_type (pol : Policy) (s s2 : St)
    (h : parseFloatLiteral pol s = .ok (true, s2)) :
    s2.literalType = TokenType.literalFloat64 ∨
      s2.literalType = TokenType.literalFloat32 := by
  simp only [parseFloatLiteral] at h
  split_ifs at h <;>
    first
      | exact floatFinish_type _ _ _ _ _ h
      | simp at h

/-- On input `0` + digit the octal sub-scanner never reports plain failure:
it raises one of the octal/overflow/suffix errors or succeeds (whereupon the
caller raises the "no octal literals" error). -/
theorem parseOctalLiteral_zero_digit (pol : Policy) (s : St) (d : Nat)
    (rest : Input) (hin : s.input = 48 :: d :: rest)
    (hd : isDigitChar d = true) :
    (∃ e, parseOctalLiteral pol s = .error e ∧
       (e = Err.decimalDigitInOctal ∨ e = Err.integerLiteralTooLarge ∨
        e = Err.unrecognisedLiteralSuffix)) ∨
    (∃ s2, parseOctalLiteral pol s = .ok (true, s2)) := by
  have hc : (peek s.input == 48 && isDigit s.input.tail) = true := by
    simp [hin, peek, isDigit]
    exact hd
  have h48 : octDigitFn 48 = .ok (some 0) := by decide
  have hfirst : ∀ r v n, intLoop 8 octDigitFn (48 :: r) v n =
      if v > u64Max / 8 then .error .integerLiteralTooLarge
      else if v * 8 > u64Max - 0 then .error .integerLiteralTooLarge
      else intLoop 8 octDigitFn r (v * 8 + 0) (n + 1) := by
    intro r v n
    simp only [intLoop, h48]
  simp only [parseOctalLiteral, hc, if_true]
  cases hok : intLoop 8 octDigitFn s.input 0 0 with
  | error e =>
    rcases intLoop_oct_error _ _ _ _ hok with he | he
    · exact Or.inl ⟨e, by simp [parseIntegerWithBase, hok], Or.inl he⟩
    · exact Or.inl ⟨e, by simp [parseIntegerWithBase, hok], Or.inr (Or.inl he)⟩
  | ok trip =>
    obtain ⟨v, nd, t2⟩ := trip
    have hnd : 1 ≤ nd := by
      rw [hin, hfirst] at hok
      have hz1 : ¬ (0 : Nat) > u64Max / 8 := by omega
      have hz2 : ¬ (0 : Nat) * 8 > u64Max - 0 := by
        simp [u64Max]
      rw [if_neg hz1, if_neg hz2] at hok
      exact intLoop_count_ge _ _ _ _ _ _ _ _ hok
    have hndz : (nd == 0) = false := by simp; omega
    cases hcc : checkCharacterImmediatelyAfterLiteral pol
        { s with
          input := (parseSuffixForIntLiteral t2).1,
          literalIntValue := toInt64 v,
          literalType := (parseSuffixForIntLiteral t2).2 } with
    | error e =>
      refine Or.inl ⟨e, ?_, Or.inr (Or.inr (checkChar_error _ _ _ hcc))⟩
      simp [parseIntegerWithBase, hok, hndz, hcc]
    | ok s3 =>
      refine Or.inr ⟨s3, ?_⟩
      simp [parseIntegerWithBase, hok, hndz, hcc]

/-! ### The claims -/

/-- C1: evaluating the scanner at the failing input `9223372036854775808`
(the decimal digit run of value `2^63`, 32-bit kind by absence of a suffix):
contrary to the claim, no fatal "too large" error is raised — the
`(int64_t) v` cast wraps the accumulated value to `-2^63`, which passes the
`> INT32_MAX` range test, and scanning succeeds with a 32-bit integer token
whose `literalIntValue` is `-9223372036854775808`. -/
theorem claim_C1_wrap_escapes_range_check :
    parseNumericLiteral defaultPolicy false
        (mkSt [57, 50, 50, 51, 51, 55, 50, 48, 51, 54,
               56, 53, 52, 55, 55, 53, 56, 48, 56]) =
      .ok (TokenType.literalInt32,
        { mkSt [57, 50, 50, 51, 51, 55, 50, 48, 51, 54,
                56, 53, 52, 55, 55, 53, 56, 48, 56] with
          input := [],
          literalIntValue := -9223372036854775808,
          literalType := TokenType.literalInt32 }) := by
  decide

/-- C2 counterexample: the input text `09.5` begins with `0` followed by the
digit `9` (and no `0x`/`0b` prefix), yet scanning raises no error: the float
sub-scanner runs before the octal rejection and produces the 64-bit float
literal 9.5. -/
theorem claim_C2_counterexample :
    ∃ s2, parseNumericLiteral defaultPolicy false (mkSt [48, 57, 46, 53]) =
        .ok (TokenType.literalFloat64, s2) ∧ s2.input = [] :=
  ⟨_, rfl, rfl⟩

/-- C2 (amended): on input text beginning `0` + decimal digit (never a
`0x`/`0X`/`0b`/`0B` prefix, the second character being a digit), a successful
scan is possible only as a float literal (when a decimal point or exponent
follows the digit run); whenever the float sub-scanner rejects, scanning
raises a fatal error — "decimal digit in octal", "no octal literals", the
trailing-suffix error, or the 64-bit overflow error — and never produces a
token. -/
theorem claim_C2_zero_digit_rejected (pol : Policy) (s : St) (d : Nat)
    (rest : Input) (hin : s.input = 48 :: d :: rest)
    (hd : isDigitChar d = true) :
    (∀ tok s2, parseNumericLiteral pol false s = .ok (tok, s2) →
       s2.literalType = TokenType.literalFloat64 ∨
         s2.literalType = TokenType.literalFloat32) ∧
    (parseFloatLiteral pol s = .ok (false, s) →
       ∃ e, parseNumericLiteral pol false s = .error e ∧
         (e = Err.decimalDigitInOctal ∨ e = Err.noOctalLiterals ∨
          e = Err.unrecognisedLiteralSuffix ∨
          e = Err.integerLiteralTooLarge)) := by
  have hdb : 48 ≤ d ∧ d ≤ 57 := by
    simp only [isDigitChar, Bool.and_eq_true, decide_eq_true_eq] at hd
    exact hd
  have hfx : advanceIf [[48, 120], [48, 88]] s.input = none := by
    rw [hin]
    exact hexPrefix_fail_of_ne d rest (by omega) (by omega)
  have hhex : parseHexLiteral pol s = .ok (false, s) :=
    parseHexLiteral_noPrefix pol s hfx
  constructor
  · intro tok s2 hok
    simp only [parseNumericLiteral, hhex] at hok
    cases hfl : parseFloatLiteral pol s with
    | error e => simp [hfl] at hok
    | ok pr =>
      obtain ⟨b, s1⟩ := pr
      cases b with
      | true =>
        simp only [hfl, Except.ok.injEq, Prod.mk.injEq] at hok
        have := parseFloatLiteral_true_type pol s s1 hfl
        rcases hok with ⟨h1, h2⟩
        first
          | exact h2 ▸ this
          | exact h2.symm ▸ this
      | false =>
        have hid : s1 = s := parseFloatLiteral_false pol s s1 hfl
        rw [hid] at hfl
        rcases parseOctalLiteral_zero_digit pol s d rest hin hd with
          ⟨e, hoe, hes⟩ | ⟨s3, hos⟩
        · simp [hfl, hoe] at hok
        · simp [hfl, hos] at hok
  · intro hfl
    simp only [parseNumericLiteral, hhex, hfl]
    rcases parseOctalLiteral_zero_digit pol s d rest hin hd with
      ⟨e, hoe, hes⟩ | ⟨s3, hos⟩
    · refine ⟨e, by simp [hoe], ?_⟩
      rcases hes with h | h | h
      · exact Or.inl h
      · exact Or.inr (Or.inr (Or.inr h))
      · exact Or.inr (Or.inr (Or.inl h))
    · exact ⟨Err.noOctalLiterals, by simp [hos], Or.inr (Or.inl rfl)⟩

/-- C2 witness: the amended theorem applied at the concrete input `08x`,
whose float rejection leads to the fatal "decimal digit in octal" error. -/
theorem claim_C2_zero_digit_rejected_witness :
    ∃ e, parseNumericLiteral defaultPolicy false (mkSt [48, 56, 120]) =
        .error e ∧
      (e = Err.decimalDigitInOctal ∨ e = Err.noOctalLiterals ∨
       e = Err.unrecognisedLiteralSuffix ∨ e = Err.integerLiteralTooLarge) :=
  (claim_C2_zero_digit_rejected defaultPolicy (mkSt [48, 56, 120]) 56 [120]
    rfl (by decide)).2 (by decide)

theorem decDigitFn_digit (c : Nat) (h : isDigitChar c = true) :
    decDigitFn c = .ok (some (c - 48)) := by
  simp [decDigitFn, h]

theorem decDigitFn_nondigit (c : Nat) (h : isDigitChar c = false) :
    decDigitFn c = .ok none := by
  simp [decDigitFn, h]

/-- A maximal decimal digit run with the hex/binary/octal shapes ruled out
scans as a decimal integer literal: the shared scanning tail of the C3
argument, parameterized by the suffix text that follows the run. -/
theorem parseNumericLiteral_decimal_run (pol : Policy) (d : Nat)
    (ds rest0 : Input) (ty : TokenType)
    (hd : isDigitChar d = true)
    (hds : ∀ c ∈ ds, isDigitChar c = true)
    (hrd : isDigitChar (peek rest0) = false)
    (hr46 : peek rest0 ≠ 46) (hr101 : peek rest0 ≠ 101)
    (hr69 : peek rest0 ≠ 69)
    (hbody : pol.isIdentifierBody 0 = false)
    (hhx : advanceIf [[48, 120], [48, 88]] ((d :: ds) ++ rest0) = none)
    (hbn : advanceIf [[48, 98], [48, 66]] ((d :: ds) ++ rest0) = none)
    (hoct : (peek ((d :: ds) ++ rest0) == 48 &&
        isDigit (((d :: ds) ++ rest0).tail)) = false)
    (hsuffix : parseSuffixForIntLiteral rest0 = ([], ty))
    (hval : natOfDecDigits (d :: ds) ≤ u64Max) :
    parseNumericLiteral pol false (mkSt ((d :: ds) ++ rest0)) =
      checkIntLiteralRange false
        { mkSt ((d :: ds) ++ rest0) with
          input := [],
          literalIntValue := toInt64 (natOfDecDigits (d :: ds)),
          literalType := ty } := by
  have hdsall : ∀ c ∈ d :: ds, isDigitChar c = true := by
    intro c hc
    rcases List.mem_cons.mp hc with rfl | hc2
    · exact hd
    · exact hds c hc2
  have hne : d :: ds ≠ [] := by simp
  have hs : (mkSt ((d :: ds) ++ rest0)).input = (d :: ds) ++ rest0 := rfl
  have hfl : parseFloatLiteral pol (mkSt ((d :: ds) ++ rest0)) =
      .ok (false, mkSt ((d :: ds) ++ rest0)) :=
    parseFloatLiteral_digitsOnly pol _ (d :: ds) rest0 hs hne hdsall hrd
      hr46 hr101 hr69
  have hhex : parseHexLiteral pol (mkSt ((d :: ds) ++ rest0)) =
      .ok (false, mkSt ((d :: ds) ++ rest0)) :=
    parseHexLiteral_noPrefix pol _ hhx
  have hbin : parseBinaryLiteral pol (mkSt ((d :: ds) ++ rest0)) =
      .ok (false, mkSt ((d :: ds) ++ rest0)) :=
    parseBinaryLiteral_noPrefix pol _ hbn
  have hoctf : parseOctalLiteral pol (mkSt ((d :: ds) ++ rest0)) =
      .ok (false, mkSt ((d :: ds) ++ rest0)) :=
    parseOctalLiteral_noShape pol _ hoct
  have hdf : ∀ c ∈ d :: ds, decDigitFn c = .ok (some (c - 48)) :=
    fun c hc => decDigitFn_digit c (hdsall c hc)
  have hdec : parseDecimalLiteral pol (mkSt ((d :: ds) ++ rest0)) =
      .ok (true,
        { mkSt ((d :: ds) ++ rest0) with
          input := [],
          literalIntValue := toInt64 (natOfDecDigits (d :: ds)),
          literalType := ty }) := by
    have hbase := parseIntegerWithBase_digits 10 decDigitFn (fun c => c - 48)
      (by omega) pol (mkSt ((d :: ds) ++ rest0)) (d :: ds) rest0 ty hne hdf
      (decDigitFn_nondigit _ hrd) hsuffix hbody hval
    unfold parseDecimalLiteral
    rw [hs, hbase]
    rfl
  simp only [parseNumericLiteral, hhex, hfl, hoctf, hbin, hdec]

/-- C3 counterexample: `00` is a decimal digit string of value 0, well within
the signed 32-bit range, yet tokenizing it raises the fatal "no octal
literals" error instead of yielding an integer literal token. -/
theorem claim_C3_counterexample :
    matchNextToken defaultPolicy (mkSt [48, 48]) =
      .error Err.noOctalLiterals := by
  decide

theorem checkIntLiteralRange_int32_pos (s : St)
    (hty : s.literalType = TokenType.literalInt32)
    (hle : s.literalIntValue ≤ 2147483647) :
    checkIntLiteralRange false s = .ok (TokenType.literalInt32, s) := by
  unfold checkIntLiteralRange
  rw [if_pos (by simp [hty]), if_neg (by simp), if_neg (by simp; omega), hty]

theorem checkIntLiteralRange_int64 (b : Bool) (s : St)
    (hty : s.literalType = TokenType.literalInt64) :
    checkIntLiteralRange b s = .ok (TokenType.literalInt64, s) := by
  unfold checkIntLiteralRange
  rw [if_neg (by simp [hty]), hty]

/-- C3 (amended): for every decimal digit string without a leading zero (a
single `0` allowed) whose value fits the signed 32-bit range, and any
policies for which digits do not start identifiers and the end-of-input
character is no identifier body, tokenizing the string yields the 32-bit
integer literal with its decimal value, and tokenizing it with an `i64`
suffix appended yields the 64-bit integer literal with the same value. -/
theorem claim_C3_decimal_in_range (pol : Policy) (d : Nat) (ds : Input)
    (hd : isDigitChar d = true)
    (hds : ∀ c ∈ ds, isDigitChar c = true)
    (hlead : d ≠ 48 ∨ ds = [])
    (hstart : pol.isIdentifierStart d = false)
    (hbody : pol.isIdentifierBody 0 = false)
    (hval : natOfDecDigits (d :: ds) ≤ 2147483647) :
    (∃ s2, matchNextToken pol (mkSt (d :: ds)) =
         .ok (TokenType.literalInt32, s2) ∧
       s2.literalIntValue = (natOfDecDigits (d :: ds) : Int) ∧
       s2.input = []) ∧
    (∃ s2, matchNextToken pol (mkSt ((d :: ds) ++ [105, 54, 52])) =
         .ok (TokenType.literalInt64, s2) ∧
       s2.literalIntValue = (natOfDecDigits (d :: ds) : Int) ∧
       s2.input = []) := by
  have hdb : 48 ≤ d ∧ d ≤ 57 := by
    simp only [isDigitChar, Bool.and_eq_true, decide_eq_true_eq] at hd
    exact hd
  have hu : natOfDecDigits (d :: ds) ≤ u64Max := by
    simp only [u64Max]; omega
  have hsmall : toInt64 (natOfDecDigits (d :: ds)) =
      (natOfDecDigits (d :: ds) : Int) :=
    toInt64_small _ (by omega)
  have hmnt : ∀ rest0 : Input,
      matchNextToken pol (mkSt ((d :: ds) ++ rest0)) =
        parseNumericLiteral pol false (mkSt ((d :: ds) ++ rest0)) := by
    intro rest0
    have hst : pol.isIdentifierStart
        (peek (mkSt ((d :: ds) ++ rest0)).input) = false := hstart
    have hdig : isDigit (mkSt ((d :: ds) ++ rest0)).input = true := by
      simp only [mkSt, isDigit, List.cons_append, peek, List.headD]
      exact hd
    simp only [matchNextToken, hst, Bool.false_eq_true, if_false, hdig,
      if_true]
  have hfacts : ∀ rest0 : Input, peek rest0 ≠ 120 → peek rest0 ≠ 88 →
      peek rest0 ≠ 98 → peek rest0 ≠ 66 → isDigitChar (peek rest0) = false →
      advanceIf [[48, 120], [48, 88]] ((d :: ds) ++ rest0) = none ∧
      advanceIf [[48, 98], [48, 66]] ((d :: ds) ++ rest0) = none ∧
      (peek ((d :: ds) ++ rest0) == 48 &&
        isDigit (((d :: ds) ++ rest0).tail)) = false := by
    intro rest0 h120 h88 h98 h66 hrd
    by_cases h48 : d = 48
    · have hnil : ds = [] := by
        rcases hlead with h | h
        · exact absurd h48 h
        · exact h
      subst hnil; subst h48
      constructor
      · cases rest0 with
        | nil => decide
        | cons r rs =>
          simp only [peek, List.headD] at h120 h88
          simp [advanceIf, startsWith, Ne.symm h120, Ne.symm h88]
      · constructor
        · cases rest0 with
          | nil => decide
          | cons r rs =>
            simp only [peek, List.headD] at h98 h66
            simp [advanceIf, startsWith, Ne.symm h98, Ne.symm h66]
        · simp only [List.cons_append, List.nil_append, List.tail_cons,
            isDigit]
          simp [hrd]
    · refine ⟨hexPrefix_fail_head d _ h48, binPrefix_fail_head d _ h48, ?_⟩
      simp only [List.cons_append, peek, List.headD]
      simp [h48]
  constructor
  · -- no suffix: the 32-bit literal
    have hf := hfacts [] (by decide) (by decide) (by decide) (by decide)
      (by decide)
    have hrun := parseNumericLiteral_decimal_run pol d ds []
      TokenType.literalInt32 hd hds (by decide) (by decide) (by decide)
      (by decide) hbody hf.1 hf.2.1 hf.2.2 (by decide) hu
    have hm := hmnt []
    rw [List.append_nil] at hm hrun
    refine ⟨{ mkSt (d :: ds) with
              input := [],
              literalIntValue := toInt64 (natOfDecDigits (d :: ds)),
              literalType := TokenType.literalInt32 }, ?_, ?_, rfl⟩
    · rw [hm, hrun]
      refine checkIntLiteralRange_int32_pos _ rfl ?_
      show toInt64 (natOfDecDigits (d :: ds)) ≤ 2147483647
      rw [hsmall]
      exact_mod_cast hval
    · exact hsmall
  · -- i64 suffix: the 64-bit literal
    have hf := hfacts [105, 54, 52] (by decide) (by decide) (by decide)
      (by decide) (by decide)
    have hrun := parseNumericLiteral_decimal_run pol d ds [105, 54, 52]
      TokenType.literalInt64 hd hds (by decide) (by decide) (by decide)
      (by decide) hbody hf.1 hf.2.1 hf.2.2 (by decide) hu
    refine ⟨{ mkSt ((d :: ds) ++ [105, 54, 52]) with
              input := [],
              literalIntValue := toInt64 (natOfDecDigits (d :: ds)),
              literalType := TokenType.literalInt64 }, ?_, ?_, rfl⟩
    · rw [hmnt [105, 54, 52], hrun]
      exact checkIntLiteralRange_int64 false _ rfl
    · exact hsmall

/-- C3 witness: the amended theorem applied at `42` and `42i64`. -/
theorem claim_C3_decimal_in_range_witness :
    (∃ s2, matchNextToken defaultPolicy (mkSt [52, 50]) =
         .ok (TokenType.literalInt32, s2) ∧
       s2.literalIntValue = (natOfDecDigits [52, 50] : Int) ∧
       s2.input = []) ∧
    (∃ s2, matchNextToken defaultPolicy (mkSt ([52, 50] ++ [105, 54, 52])) =
         .ok (TokenType.literalInt64, s2) ∧
       s2.literalIntValue = (natOfDecDigits [52, 50] : Int) ∧
       s2.input = []) :=
  claim_C3_decimal_in_range defaultPolicy 52 [50] (by decide)
    (by decide) (Or.inl (by decide)) (by decide) (by decide) (by decide)

theorem toInt64_emod (v : Nat) (h : v ≤ u64Max) :
    toInt64 v % 18446744073709551616 = (v : Int) := by
  unfold toInt64
  simp only [u64Max] at h
  split_ifs with hv
  · omega
  · omega

theorem parseIntegerWithBase_error (base : Nat)
    (gnd : Nat → Except Err (Option Nat)) (pol : Policy) (s : St) (t : Input)
    (e : Err) (h : intLoop base gnd t 0 0 = .error e) :
    parseIntegerWithBase base gnd pol s t = .error e := by
  simp [parseIntegerWithBase, h]

/-- C4: for every hex literal text `0x<digits>` and binary literal text
`0b<digits>` (scanned to the end of input, with a policy on which the
end-of-input character is no identifier body), the decoded `literalIntValue`
is the standard base-16 (resp. base-2) interpretation of the digit run,
stored through the `(int64_t)` cast — its value as an unsigned 64-bit
quantity, `emod 2^64`, is exactly that interpretation; and whenever the
interpretation exceeds the unsigned 64-bit range the scan raises the fatal
"integer literal too large" error from the checks guarding each multiply and
add of the base-N accumulation. -/
theorem claim_C4_hex_binary_decode (pol : Policy) (hv : Nat → Nat)
    (hs bs : Input)
    (hhex : ∀ c ∈ hs, getHexDigitValue c = some (hv c)) (hne : hs ≠ [])
    (hbs : ∀ c ∈ bs, c = 48 ∨ c = 49) (hbne : bs ≠ [])
    (hbody : pol.isIdentifierBody 0 = false) :
    (fromDigits 16 hv hs ≤ u64Max →
      parseHexLiteral pol (mkSt (48 :: 120 :: hs)) =
        .ok (true,
          { mkSt (48 :: 120 :: hs) with
            input := [],
            literalIntValue := toInt64 (fromDigits 16 hv hs),
            literalType := TokenType.literalInt32 }) ∧
      toInt64 (fromDigits 16 hv hs) % 18446744073709551616 =
        (fromDigits 16 hv hs : Int)) ∧
    (u64Max < fromDigits 16 hv hs →
      parseHexLiteral pol (mkSt (48 :: 120 :: hs)) =
        .error Err.integerLiteralTooLarge) ∧
    (fromDigits 2 (fun c => c - 48) bs ≤ u64Max →
      parseBinaryLiteral pol (mkSt (48 :: 98 :: bs)) =
        .ok (true,
          { mkSt (48 :: 98 :: bs) with
            input := [],
            literalIntValue := toInt64 (fromDigits 2 (fun c => c - 48) bs),
            literalType := TokenType.literalInt32 }) ∧
      toInt64 (fromDigits 2 (fun c => c - 48) bs) % 18446744073709551616 =
        (fromDigits 2 (fun c => c - 48) bs : Int)) ∧
    (u64Max < fromDigits 2 (fun c => c - 48) bs →
      parseBinaryLiteral pol (mkSt (48 :: 98 :: bs)) =
        .error Err.integerLiteralTooLarge) := by
  have hhx : advanceIf [[48, 120], [48, 88]] (48 :: 120 :: hs) = some hs := by
    simp [advanceIf, startsWith]
  have hbx : advanceIf [[48, 98], [48, 66]] (48 :: 98 :: bs) = some bs := by
    simp [advanceIf, startsWith]
  have hsin : (mkSt (48 :: 120 :: hs)).input = 48 :: 120 :: hs := rfl
  have hbin : (mkSt (48 :: 98 :: bs)).input = 48 :: 98 :: bs := rfl
  have hhdf : ∀ c ∈ hs, hexDigitFn c = .ok (some (hv c)) := by
    intro c hc
    simp [hexDigitFn, hhex c hc]
  have hbdf : ∀ c ∈ bs, binDigitFn c = .ok (some (c - 48)) := by
    intro c hc
    rcases hbs c hc with rfl | rfl <;> decide
  refine ⟨?_, ?_, ?_, ?_⟩
  · intro hle
    refine ⟨?_, toInt64_emod _ hle⟩
    have hrun := parseIntegerWithBase_digits 16 hexDigitFn hv (by omega) pol
      (mkSt (48 :: 120 :: hs)) hs [] TokenType.literalInt32 hne hhdf
      (by decide) (by decide) hbody hle
    rw [List.append_nil] at hrun
    simp only [parseHexLiteral, hsin, hhx, hrun]
  · intro hgt
    have hloop := intLoop_overflow 16 hexDigitFn hv (by omega) hs [] 0 0 hhdf
      (fun c hc => le_trans (getHexDigitValue_le c (hv c) (hhex c hc))
        (by simp [u64Max]))
      (by simp [u64Max]) hgt
    rw [List.append_nil] at hloop
    have herr := parseIntegerWithBase_error 16 hexDigitFn pol
      (mkSt (48 :: 120 :: hs)) hs Err.integerLiteralTooLarge hloop
    simp only [parseHexLiteral, hsin, hhx, herr]
  · intro hle
    refine ⟨?_, toInt64_emod _ hle⟩
    have hrun := parseIntegerWithBase_digits 2 binDigitFn (fun c => c - 48)
      (by omega) pol (mkSt (48 :: 98 :: bs)) bs [] TokenType.literalInt32
      hbne hbdf (by decide) (by decide) hbody
      hle
    rw [List.append_nil] at hrun
    simp only [parseBinaryLiteral, hbin, hbx, hrun]
  · intro hgt
    have hloop := intLoop_overflow 2 binDigitFn (fun c => c - 48) (by omega)
      bs [] 0 0 hbdf
      (fun c hc => by
        rcases hbs c hc with rfl | rfl <;> simp [u64Max])
      (by simp [u64Max]) hgt
    rw [List.append_nil] at hloop
    have herr := parseIntegerWithBase_error 2 binDigitFn pol
      (mkSt (48 :: 98 :: bs)) bs Err.integerLiteralTooLarge hloop
    simp only [parseBinaryLiteral, hbin, hbx, herr]

/-- C4 witness: the theorem applied at `0xA` (value 10), `0b10` (value 2),
and — through a second application — at the 17-digit hex run of
`0x10000000000000000` (value `2^64`), which overflows. -/
theorem claim_C4_hex_binary_decode_witness :
    (parseHexLiteral defaultPolicy (mkSt [48, 120, 65]) =
        .ok (true,
          { mkSt [48, 120, 65] with
            input := [],
            literalIntValue := toInt64 (fromDigits 16 (fun _ => 10) [65]),
            literalType := TokenType.literalInt32 })) ∧
    (parseBinaryLiteral defaultPolicy (mkSt [48, 98, 49, 48]) =
        .ok (true,
          { mkSt [48, 98, 49, 48] with
            input := [],
            literalIntValue :=
              toInt64 (fromDigits 2 (fun c => c - 48) [49, 48]),
            literalType := TokenType.literalInt32 })) ∧
    (parseHexLiteral defaultPolicy
        (mkSt [48, 120, 49, 48, 48, 48, 48, 48, 48, 48, 48,
               48, 48, 48, 48, 48, 48, 48, 48]) =
      .error Err.integerLiteralTooLarge) :=
  ⟨((claim_C4_hex_binary_decode defaultPolicy (fun _ => 10) [65] [49, 48]
      (by decide) (by decide) (by decide) (by decide) (by decide)).1
      (by decide)).1,
   ((claim_C4_hex_binary_decode defaultPolicy (fun _ => 10) [65] [49, 48]
      (by decide) (by decide) (by decide) (by decide) (by decide)).2.2.1
      (by decide)).1,
   (claim_C4_hex_binary_decode defaultPolicy (fun c => c - 48)
      [49, 48, 48, 48, 48, 48, 48, 48, 48, 48, 48, 48, 48, 48, 48, 48, 48]
      [49] (by decide) (by decide) (by decide) (by decide) (by decide)).2.1
      (by decide)⟩

theorem parseStringLiteral_notQuote (pol : Policy) (q : Nat) (s : St)
    (h34 : q ≠ 34) (h39 : q ≠ 39) :
    parseStringLiteral pol q s = .ok (false, s) := by
  unfold parseStringLiteral
  rw [if_pos]
  simp [h34, h39]

/-- C5: with the cursor on a `-` character (and `-` not an identifier
start), scanning is split on the one-character look-ahead.  If a decimal
digit follows, the `-` is consumed, a numeric literal is scanned from the
remainder, and the stored value is negated in place: `int64_t` negation of
`literalIntValue` for the integer kinds, sign flip of `literalDoubleValue`
otherwise.  If no digit follows, no literal scan consumes the `-` and the
operator table decides the token. -/
theorem claim_C5_minus_lookahead (pol : Policy) (s : St)
    (hstart : pol.isIdentifierStart (peek s.input) = false)
    (hminus : peek s.input = 45) :
    (isDigit s.input.tail = true →
      ∀ tok s1,
        parseNumericLiteral pol true { s with input := s.input.tail } =
          .ok (tok, s1) →
        ((tok = TokenType.literalInt32 ∨ tok = TokenType.literalInt64) →
          matchNextToken pol s =
            .ok (tok, { s1 with
                        literalIntValue := int64Neg s1.literalIntValue })) ∧
        (tok ≠ TokenType.literalInt32 → tok ≠ TokenType.literalInt64 →
          matchNextToken pol s =
            .ok (tok, { s1 with
                        literalDoubleValue := -s1.literalDoubleValue }))) ∧
    (isDigit s.input.tail = false →
      ∀ op len, pol.opMatch s.input = some (op, len) →
        matchNextToken pol s = .ok (op, { s with input := s.input.drop len })) := by
  have hnotdig : isDigit s.input = false := by
    simp [isDigit, hminus, isDigitChar]
  constructor
  · intro hdig tok s1 hok
    have hcond : (peek s.input == 45 && isDigit s.input.tail) = true := by
      simp [hminus, hdig]
    constructor
    · intro hint
      have htok : (tok == TokenType.literalInt32 ||
          tok == TokenType.literalInt64) = true := by
        rcases hint with rfl | rfl <;> simp
      simp only [matchNextToken, hstart, Bool.false_eq_true, if_false,
        hnotdig, hcond, if_true, hok, htok]
    · intro hn32 hn64
      have htok : (tok == TokenType.literalInt32 ||
          tok == TokenType.literalInt64) = false := by
        simp [hn32, hn64]
      simp only [matchNextToken, hstart, Bool.false_eq_true, if_false,
        hnotdig, hcond, if_true, hok, htok]
  · intro hdig op len hop
    have hcond : (peek s.input == 45 && isDigit s.input.tail) = false := by
      simp [hdig]
    have hstr : parseStringLiteral pol (peek s.input) s = .ok (false, s) :=
      parseStringLiteral_notQuote pol _ s (by omega) (by omega)
    have hdot : (peek s.input == 46) = false := by simp [hminus]
    simp only [matchNextToken, hstart, Bool.false_eq_true, if_false,
      hnotdig, hcond, hstr, hdot, matchNextToken.matchRest, hop]

/-- C5 witness: the look-ahead theorem applied at `-12` (digit follows: the
literal `-12` with the minus folded into the value) and at `- 1` (no digit
follows: the `-` is matched by the operator table). -/
theorem claim_C5_minus_lookahead_witness :
    matchNextToken defaultPolicy (mkSt [45, 49, 50]) =
      .ok (TokenType.literalInt32,
        { mkSt [45, 49, 50] with
          input := [],
          literalIntValue := int64Neg 12,
          literalType := TokenType.literalInt32 }) ∧
    matchNextToken defaultPolicy (mkSt [45, 32, 49]) =
      .ok (TokenType.other [45],
        { mkSt [45, 32, 49] with input := [32, 49] }) :=
  ⟨((claim_C5_minus_lookahead defaultPolicy (mkSt [45, 49, 50]) (by decide)
        (by decide)).1 (by decide) TokenType.literalInt32
        { mkSt [45, 49, 50] with
          input := [],
          literalIntValue := 12,
          literalType := TokenType.literalInt32 }
        (by decide)).1 (Or.inl rfl),
   (claim_C5_minus_lookahead defaultPolicy (mkSt [45, 32, 49]) (by decide)
        (by decide)).2 (by decide) (TokenType.other [45]) 1 (by decide)⟩

/-- Modelled from the spec: the standard UTF-8 encoding in arithmetic form —
one byte below 0x80; a `0xC0`-led pair below 0x800; a `0xE0`-led triple below
0x10000; a `0xF0`-led quadruple otherwise; each continuation byte carrying
six bits behind `0x80` (section 4.5). -/
def specUTF8 (c : Nat) : List Nat :=
  if c < 128 then [c]
  else if c < 2048 then [192 + c / 64, 128 + c % 64]
  else if c < 65536 then
    [224 + c / 4096, 128 + (c / 64) % 64, 128 + c % 64]
  else
    [240 + c / 262144, 128 + (c / 4096) % 64, 128 + (c / 64) % 64,
     128 + c % 64]

theorem land63_mod (c : Nat) : 63 &&& c = c % 64 := by
  rw [Nat.land_comm]
  have h := Nat.and_pow_two_sub_one_eq_mod c 6
  norm_num at h
  exact h

theorem utf8Encode_eq_spec (c : Nat) (hc : c < 65536) :
    utf8Encode c = specUTF8 c := by
  have hor : ∀ y, y < 64 → 128 ||| y = 128 + y := by decide
  have hsh6 : c >>> 6 = c / 64 := by
    rw [Nat.shiftRight_eq_div_pow]
  have hsh12 : c >>> 12 = c / 4096 := by
    rw [Nat.shiftRight_eq_div_pow]
  by_cases h1 : c < 128
  · rw [utf8Encode, if_neg (by omega), specUTF8, if_pos h1]
  · by_cases h2 : c < 2048
    · have hlead : ∀ x, x < 32 → (16320 ||| x) % 256 = 192 + x := by decide
      rw [utf8Encode, if_pos (by omega), specUTF8, if_neg h1, if_pos h2]
      rw [if_neg (by omega)]
      show ((255 <<< (7 - 1) ||| c >>> (1 * 6)) % 256) ::
          (List.range 1).reverse.map
            (fun i => 128 ||| (63 &&& (c >>> (i * 6)))) =
        [192 + c / 64, 128 + c % 64]
      rw [show (List.range 1).reverse = [0] from rfl]
      simp only [List.map_cons, List.map_nil]
      rw [show (7 : Nat) - 1 = 6 from rfl,
        show (255 : Nat) <<< 6 = 16320 from rfl,
        show (1 : Nat) * 6 = 6 from rfl, show (0 : Nat) * 6 = 0 from rfl,
        Nat.shiftRight_zero, hsh6, hlead (c / 64) (by omega), land63_mod,
        hor (c % 64) (by omega)]
    · have hlead : ∀ x, x < 16 → (8160 ||| x) % 256 = 224 + x := by decide
      rw [utf8Encode, if_pos (by omega), specUTF8, if_neg h1, if_neg h2,
        if_pos hc]
      rw [if_pos (by omega), if_neg (by omega)]
      show ((255 <<< (7 - 2) ||| c >>> (2 * 6)) % 256) ::
          (List.range 2).reverse.map (fun i => 128 ||| (63 &&& (c >>> (i * 6)))) =
        [224 + c / 4096, 128 + c / 64 % 64, 128 + c % 64]
      rw [show (List.range 2).reverse = [1, 0] from rfl]
      simp only [List.map_cons, List.map_nil]
      rw [show (7 : Nat) - 2 = 5 from rfl,
        show (255 : Nat) <<< 5 = 8160 from rfl,
        show (2 : Nat) * 6 = 12 from rfl, show (1 : Nat) * 6 = 6 from rfl,
        show (0 : Nat) * 6 = 0 from rfl, Nat.shiftRight_zero, hsh6, hsh12,
        hlead (c / 4096) (by omega), land63_mod c, land63_mod (c / 64),
        hor (c / 64 % 64) (by omega), hor (c % 64) (by omega)]

theorem readHex4_digits (h1 h2 h3 h4 v1 v2 v3 v4 : Nat) (rest : Input)
    (e1 : getHexDigitValue h1 = some v1)
    (e2 : getHexDigitValue h2 = some v2)
    (e3 : getHexDigitValue h3 = some v3)
    (e4 : getHexDigitValue h4 = some v4) :
    readHex4 0 4 (h1 :: h2 :: h3 :: h4 :: rest) =
      .ok (((v1 * 16 + v2) * 16 + v3) * 16 + v4, rest) := by
  simp [readHex4, getAndAdvance, e1, e2, e3, e4]

/-- C6 counterexample: inside a string literal the escape `\u0000` (four hex
digits decoding to the codepoint 0) is not appended to the buffer at all —
the scan aborts with the "end of input in string constant" error. -/
theorem claim_C6_counterexample :
    strLoop 34 [92, 117, 48, 48, 48, 48, 34] [] =
      .error Err.endOfInputInStringConstant := by
  simp [strLoop, readEscape, readHex4, getAndAdvance, getHexDigitValue]

/-- C6 (amended): for every `\u` escape of four hex digits decoding to a
nonzero 16-bit codepoint, the scan appends exactly the standard UTF-8
encoding of that codepoint to the accumulated string and continues: one byte
below 0x80, a two-byte sequence below 0x800, a three-byte sequence below
0x10000, with the standard leading/continuation bit patterns (the zero
codepoint instead aborts the scan, see the counterexample). -/
theorem claim_C6_unicode_escape_utf8 (q h1 h2 h3 h4 v1 v2 v3 v4 : Nat)
    (rest acc : List Nat)
    (hq : q = 34 ∨ q = 39)
    (e1 : getHexDigitValue h1 = some v1)
    (e2 : getHexDigitValue h2 = some v2)
    (e3 : getHexDigitValue h3 = some v3)
    (e4 : getHexDigitValue h4 = some v4)
    (hnz : ((v1 * 16 + v2) * 16 + v3) * 16 + v4 ≠ 0) :
    strLoop q (92 :: 117 :: h1 :: h2 :: h3 :: h4 :: rest) acc =
      strLoop q rest
        (acc ++ specUTF8 (((v1 * 16 + v2) * 16 + v3) * 16 + v4)) ∧
    (((v1 * 16 + v2) * 16 + v3) * 16 + v4 < 128 →
      (specUTF8 (((v1 * 16 + v2) * 16 + v3) * 16 + v4)).length = 1) ∧
    (128 ≤ ((v1 * 16 + v2) * 16 + v3) * 16 + v4 →
      ((v1 * 16 + v2) * 16 + v3) * 16 + v4 < 2048 →
      (specUTF8 (((v1 * 16 + v2) * 16 + v3) * 16 + v4)).length = 2) ∧
    (2048 ≤ ((v1 * 16 + v2) * 16 + v3) * 16 + v4 →
      (specUTF8 (((v1 * 16 + v2) * 16 + v3) * 16 + v4)).length = 3) := by
  have hv1 := getHexDigitValue_le h1 v1 e1
  have hv2 := getHexDigitValue_le h2 v2 e2
  have hv3 := getHexDigitValue_le h3 v3 e3
  have hv4 := getHexDigitValue_le h4 v4 e4
  have hlt : ((v1 * 16 + v2) * 16 + v3) * 16 + v4 < 65536 := by omega
  have hesc : readEscape (117 :: h1 :: h2 :: h3 :: h4 :: rest) =
      .ok (((v1 * 16 + v2) * 16 + v3) * 16 + v4, rest) := by
    rw [readEscape]
    norm_num
    exact readHex4_digits h1 h2 h3 h4 v1 v2 v3 v4 rest e1 e2 e3 e4
  refine ⟨?_, ?_, ?_, ?_⟩
  · have hq92 : (92 == q) = false := by rcases hq with rfl | rfl <;> decide
    rw [strLoop]
    simp only [hq92, Bool.false_eq_true, if_false, beq_self_eq_true, if_true]
    split
    · rename_i e he
      rw [hesc] at he
      simp at he
    · rename_i c2 cs2 he
      rw [hesc] at he
      simp only [Except.ok.injEq, Prod.mk.injEq] at he
      obtain ⟨h1v, h2v⟩ := he
      subst h1v
      subst h2v
      rw [if_neg (by simp [hnz])]
      rw [utf8Encode_eq_spec _ hlt]
  · intro hsmall
    rw [specUTF8, if_pos hsmall]
    rfl
  · intro hge hlt2
    rw [specUTF8, if_neg (by omega), if_pos hlt2]
    rfl
  · intro hge
    rw [specUTF8, if_neg (by omega), if_neg (by omega), if_pos hlt]
    rfl

/-- C6 witness: the escape `é` (é, codepoint 0xE9) inside a
double-quoted string appends the two bytes `0xC3 0xA9`. -/
theorem claim_C6_unicode_escape_utf8_witness :
    strLoop 34 [92, 117, 48, 48, 101, 57, 34] [] =
      strLoop 34 [34] ([] ++ specUTF8 233) ∧ (specUTF8 233).length = 2 :=
  ⟨(claim_C6_unicode_escape_utf8 34 48 48 101 57 0 0 14 9 [34] []
      (Or.inl rfl) (by decide) (by decide) (by decide) (by decide)
      (by decide)).1,
   (claim_C6_unicode_escape_utf8 34 48 48 101 57 0 0 14 9 [34] []
      (Or.inl rfl) (by decide) (by decide) (by decide) (by decide)
      (by decide)).2.2.1 (by decide) (by decide)⟩

/-- C7: whenever a literal sub-scanner — hex, float, binary, octal, decimal
or string — reports failure (`false`, rather than success or a fatal error),
the engine's cursor is exactly what it was before the attempt, so the next
sub-scanner in the fixed order starts from the same position. -/
theorem claim_C7_failed_subscanner_keeps_cursor (pol : Policy) (s s2 : St)
    (q : Nat) :
    (parseHexLiteral pol s = .ok (false, s2) → s2.input = s.input) ∧
    (parseFloatLiteral pol s = .ok (false, s2) → s2.input = s.input) ∧
    (parseBinaryLiteral pol s = .ok (false, s2) → s2.input = s.input) ∧
    (parseOctalLiteral pol s = .ok (false, s2) → s2.input = s.input) ∧
    (parseDecimalLiteral pol s = .ok (false, s2) → s2.input = s.input) ∧
    (parseStringLiteral pol q s = .ok (false, s2) → s2.input = s.input) :=
  ⟨fun h => by rw [parseHexLiteral_false pol s s2 h],
   fun h => by rw [parseFloatLiteral_false pol s s2 h],
   fun h => by rw [parseBinaryLiteral_false pol s s2 h],
   fun h => by rw [parseOctalLiteral_false pol s s2 h],
   fun h => by rw [parseDecimalLiteral_false pol s s2 h],
   fun h => by rw [parseStringLiteral_false pol q s s2 h]⟩

/-- C7 witness: on the input `@` every numeric sub-scanner and the string
sub-scanner reject, each leaving the state untouched. -/
theorem claim_C7_failed_subscanner_keeps_cursor_witness :
    (parseHexLiteral defaultPolicy (mkSt [64]) = .ok (false, mkSt [64])) ∧
    (parseFloatLiteral defaultPolicy (mkSt [64]) = .ok (false, mkSt [64])) ∧
    (mkSt [64]).input = (mkSt [64]).input ∧
    (mkSt [64]).input = (mkSt [64]).input :=
  ⟨by decide, by decide,
   (claim_C7_failed_subscanner_keeps_cursor defaultPolicy (mkSt [64])
      (mkSt [64]) 64).1 (by decide),
   (claim_C7_failed_subscanner_keeps_cursor defaultPolicy (mkSt [64])
      (mkSt [64]) 64).2.1 (by decide)⟩

/-- C8: inside a string literal, any step that decodes the character value 0
before the closing quote — reaching the end of input, a literal NUL
character, or an escape decoding to 0 such as `\u0000` — aborts the scan
with the fatal "end of input in string constant" error; nothing is appended
for it. -/
theorem claim_C8_zero_char_aborts (q : Nat) (cs cs2 acc : List Nat)
    (hq : q = 34 ∨ q = 39) :
    (readEscape cs = .ok (0, cs2) →
      strLoop q (92 :: cs) acc = .error Err.endOfInputInStringConstant) ∧
    strLoop q (0 :: cs) acc = .error Err.endOfInputInStringConstant ∧
    strLoop q [] acc = .error Err.endOfInputInStringConstant := by
  have hq92 : (92 == q) = false := by rcases hq with rfl | rfl <;> decide
  have hq0 : (0 == q) = false := by rcases hq with rfl | rfl <;> decide
  refine ⟨?_, ?_, ?_⟩
  · intro hesc
    rw [strLoop]
    simp only [hq92, Bool.false_eq_true, if_false, beq_self_eq_true, if_true]
    split
    · rename_i e he
      rw [hesc] at he
      simp at he
    · rename_i c2v cs2v he
      rw [hesc] at he
      simp only [Except.ok.injEq, Prod.mk.injEq] at he
      obtain ⟨h1v, h2v⟩ := he
      subst h1v
      subst h2v
      rw [if_pos (by decide)]
  · rw [strLoop]
    simp [hq0]
  · rw [strLoop]

/-- C8 witness: the theorem applied with the escape tail of `\u0000`, with a
literal NUL character, and at the bare end of input. -/
theorem claim_C8_zero_char_aborts_witness :
    strLoop 34 (92 :: [117, 48, 48, 48, 48, 34]) [] =
        .error Err.endOfInputInStringConstant ∧
    strLoop 34 (0 :: [97]) [] = .error Err.endOfInputInStringConstant ∧
    strLoop 34 [] [] = .error Err.endOfInputInStringConstant :=
  ⟨(claim_C8_zero_char_aborts 34 [117, 48, 48, 48, 48, 34] [34] []
      (Or.inl rfl)).1
    (by simp [readEscape, readHex4, getAndAdvance, getHexDigitValue]),
   (claim_C8_zero_char_aborts 34 [97] [] [] (Or.inl rfl)).2.1,
   (claim_C8_zero_char_aborts 34 [] [] [] (Or.inl rfl)).2.2⟩

/-- C9: a backslash followed by a nonzero character outside the recognised
escape set (`"` `'` `\` `/` `a` `b` `f` `n` `r` `t` `u`) raises no error:
the switch has no matching case, so the backslash is dropped and the
following character is appended unchanged (verbatim as a single byte when
below 0x80, i.e. by its UTF-8 encoding), and the scan continues. -/
theorem claim_C9_unknown_escape_passthrough (q c : Nat) (cs acc : List Nat)
    (hq : q = 34 ∨ q = 39)
    (hnot : c ∉ ([34, 39, 92, 47, 97, 98, 102, 110, 114, 116, 117] : List Nat))
    (hnz : c ≠ 0) :
    strLoop q (92 :: c :: cs) acc = strLoop q cs (acc ++ utf8Encode c) ∧
    (c < 128 → utf8Encode c = [c]) := by
  simp only [List.mem_cons, List.not_mem_nil, or_false, not_or] at hnot
  obtain ⟨n34, n39, n92, n47, n97, n98, n102, n110, n114, n116, n117⟩ := hnot
  have hq92 : (92 == q) = false := by rcases hq with rfl | rfl <;> decide
  have hesc : readEscape (c :: cs) = .ok (c, cs) := by
    rw [readEscape]
    simp [n34, n39, n92, n47, n97, n98, n102, n110, n114, n116, n117]
  constructor
  · rw [strLoop]
    simp only [hq92, Bool.false_eq_true, if_false, beq_self_eq_true, if_true]
    split
    · rename_i e he
      rw [hesc] at he
      simp at he
    · rename_i c2v cs2v he
      rw [hesc] at he
      simp only [Except.ok.injEq, Prod.mk.injEq] at he
      obtain ⟨h1v, h2v⟩ := he
      subst h1v
      subst h2v
      rw [if_neg (by simp [hnz])]
  · intro hsmall
    rw [utf8Encode, if_neg (by omega)]

/-- C9 witness: the unrecognised escape `\z` inside a double-quoted string
drops the backslash and appends the byte `z`. -/
theorem claim_C9_unknown_escape_passthrough_witness :
    strLoop 34 (92 :: 122 :: [34]) [] = strLoop 34 [34] ([] ++ utf8Encode 122) ∧
    utf8Encode 122 = [122] :=
  ⟨(claim_C9_unknown_escape_passthrough 34 122 [34] [] (Or.inl rfl)
      (by decide) (by decide)).1,
   (claim_C9_unknown_escape_passthrough 34 122 [34] [] (Or.inl rfl)
      (by decide) (by decide)).2 (by decide)⟩

/-! ### Save/restore round-trip: skipping is idempotent and scanning depends
only on the cursor -/

theorem findEndOfWhitespace_idem (t : Input) :
    findEndOfWhitespace (findEndOfWhitespace t) = findEndOfWhitespace t := by
  induction t with
  | nil => simp [findEndOfWhitespace]
  | cons c cs ih =>
    by_cases h : isWhitespaceChar c = true
    · simp [findEndOfWhitespace, h, ih]
    · simp only [Bool.not_eq_true] at h
      simp [findEndOfWhitespace, h]

theorem skipWS_ok_idem (t r : Input) (h : skipWS t = .ok r) :
    skipWS r = .ok r := by
  have H : ∀ n t r, t.length ≤ n → skipWS t = .ok r → skipWS r = .ok r := by
    intro n
    induction n with
    | zero =>
      intro t r hlen h
      have ht : t = [] := List.eq_nil_of_length_eq_zero (by omega)
      subst ht
      rw [skipWS] at h
      split_ifs at h with h1 h2
      · exact absurd h1 (by decide)
      · exact absurd h2 (by decide)
      · simp only [Except.ok.injEq] at h
        subst h
        rw [skipWS]
        split_ifs with g1 g2
        · exact absurd g1 (by decide)
        · exact absurd g2 (by decide)
        · rfl
    | succ n ih =>
      intro t r hlen h
      rw [skipWS] at h
      split_ifs at h with h1 h2
      · -- line comment: recurse
        refine ih _ r ?_ h
        have hlt : (findSub [10] (findEndOfWhitespace t)).length <
            (findEndOfWhitespace t).length := by
          simp only [Bool.and_eq_true, beq_iff_eq] at h1
          exact findSub_newline_lt _ h1.1
        have := findEndOfWhitespace_length_le t
        omega
      · -- block comment: terminator missing is an error, else recurse
        have h' : (if (peek (findSub [42, 47]
                ((findEndOfWhitespace t).drop 2)) == 0) = true
              then (Except.error Err.unterminatedComment : Except Err Input)
              else skipWS ((findSub [42, 47]
                ((findEndOfWhitespace t).drop 2)).drop 2)) = Except.ok r := h
        clear h
        split at h'
        · exact absurd h' (by simp)
        · refine ih _ r ?_ h'
          show (List.drop 2 (findSub [42, 47]
              ((findEndOfWhitespace t).drop 2))).length ≤ n
          simp only [Bool.and_eq_true, beq_iff_eq] at h2
          have hw : 0 < (findEndOfWhitespace t).length :=
            length_pos_of_peek_eq _ 47 h2.1 (by norm_num)
          have hb : (findSub [42, 47]
                ((findEndOfWhitespace t).drop 2)).length ≤
              ((findEndOfWhitespace t).drop 2).length := findSub_length_le _ _
          have hc := findEndOfWhitespace_length_le t
          simp only [List.length_drop] at hb ⊢
          omega
      · -- no comment at the cursor: the result is a fixed point
        simp only [Except.ok.injEq] at h
        subst h
        rw [skipWS]
        split_ifs with g1 g2
        · rw [findEndOfWhitespace_idem] at g1
          exact absurd g1 h1
        · rw [findEndOfWhitespace_idem] at g2
          exact absurd g2 h2
        · rw [findEndOfWhitespace_idem]
  exact H t.length t r le_rfl h

theorem parseSuffixForIntLiteral_type (t : Input) :
    (parseSuffixForIntLiteral t).2 = TokenType.literalInt64 ∨
      (parseSuffixForIntLiteral t).2 = TokenType.literalInt32 := by
  unfold parseSuffixForIntLiteral
  cases advanceIf [[105, 54, 52], [95, 105, 54, 52], [76], [95, 76]] t with
  | some t2 => exact Or.inl rfl
  | none =>
    cases advanceIf [[105, 51, 50], [95, 105, 51, 50]] t with
    | some t2 => exact Or.inr rfl
    | none => exact Or.inr rfl

/-- The scan of one digit run writes `input`, `literalIntValue` and
`literalType` with values depending only on the scanned text, never reading
the rest of the engine state: the outcome on any two states is the same
error, the same plain failure, or the same written fields. -/
theorem parseIntegerWithBase_shape (base : Nat)
    (gnd : Nat → Except Err (Option Nat)) (pol : Policy) (s1 s2 : St)
    (t : Input) :
    (∃ e, parseIntegerWithBase base gnd pol s1 t = .error e ∧
          parseIntegerWithBase base gnd pol s2 t = .error e) ∨
    (parseIntegerWithBase base gnd pol s1 t = .ok (false, s1) ∧
     parseIntegerWithBase base gnd pol s2 t = .ok (false, s2)) ∨
    (∃ inp v ty,
      (ty = TokenType.literalInt64 ∨ ty = TokenType.literalInt32) ∧
      parseIntegerWithBase base gnd pol s1 t =
        .ok (true,
          { s1 with input := inp, literalIntValue := v, literalType := ty }) ∧
      parseIntegerWithBase base gnd pol s2 t =
        .ok (true,
          { s2 with input := inp, literalIntValue := v, literalType := ty })) := by
  cases hl : intLoop base gnd t 0 0 with
  | error e =>
    exact Or.inl ⟨e, by simp [parseIntegerWithBase, hl],
      by simp [parseIntegerWithBase, hl]⟩
  | ok trip =>
    obtain ⟨v, nd, t2⟩ := trip
    by_cases hnd : (nd == 0) = true
    · exact Or.inr (Or.inl ⟨by simp [parseIntegerWithBase, hl, hnd],
        by simp [parseIntegerWithBase, hl, hnd]⟩)
    · have hnd2 : (nd == 0) = false := by
        simp only [Bool.not_eq_true] at hnd
        exact hnd
      by_cases hch : (isDigit (parseSuffixForIntLiteral t2).1 ||
          pol.isIdentifierBody (peek (parseSuffixForIntLiteral t2).1)) = true
      · refine Or.inl ⟨Err.unrecognisedLiteralSuffix, ?_, ?_⟩ <;>
          simp [parseIntegerWithBase, hl, hnd2,
            checkCharacterImmediatelyAfterLiteral, hch]
      · refine Or.inr (Or.inr ⟨(parseSuffixForIntLiteral t2).1, toInt64 v,
          (parseSuffixForIntLiteral t2).2, parseSuffixForIntLiteral_type t2,
          ?_, ?_⟩) <;>
          simp [parseIntegerWithBase, hl, hnd2,
            checkCharacterImmediatelyAfterLiteral, hch]

theorem parseHexLiteral_shape (pol : Policy) (s1 s2 : St)
    (hin : s1.input = s2.input) :
    (∃ e, parseHexLiteral pol s1 = .error e ∧
          parseHexLiteral pol s2 = .error e) ∨
    (parseHexLiteral pol s1 = .ok (false, s1) ∧
     parseHexLiteral pol s2 = .ok (false, s2)) ∨
    (∃ inp v ty,
      (ty = TokenType.literalInt64 ∨ ty = TokenType.literalInt32) ∧
      parseHexLiteral pol s1 =
        .ok (true,
          { s1 with input := inp, literalIntValue := v, literalType := ty }) ∧
      parseHexLiteral pol s2 =
        .ok (true,
          { s2 with input := inp, literalIntValue := v, literalType := ty })) := by
  cases ha : advanceIf [[48, 120], [48, 88]] s1.input with
  | none =>
    have ha2 : advanceIf [[48, 120], [48, 88]] s2.input = none := hin ▸ ha
    exact Or.inr (Or.inl ⟨by simp [parseHexLiteral, ha],
      by simp [parseHexLiteral, ha2]⟩)
  | some tt =>
    have ha2 : advanceIf [[48, 120], [48, 88]] s2.input = some tt := hin ▸ ha
    rcases parseIntegerWithBase_shape 16 hexDigitFn pol s1 s2 tt with
      ⟨e, e1, e2⟩ | ⟨f1, f2⟩ | ⟨inp, v, ty, hty, k1, k2⟩
    · exact Or.inl ⟨e, by simp [parseHexLiteral, ha, e1],
        by simp [parseHexLiteral, ha2, e2]⟩
    · exact Or.inr (Or.inl ⟨by simp [parseHexLiteral, ha, f1],
        by simp [parseHexLiteral, ha2, f2]⟩)
    · exact Or.inr (Or.inr ⟨inp, v, ty, hty,
        by simp [parseHexLiteral, ha, k1], by simp [parseHexLiteral, ha2, k2]⟩)

theorem parseBinaryLiteral_shape (pol : Policy) (s1 s2 : St)
    (hin : s1.input = s2.input) :
    (∃ e, parseBinaryLiteral pol s1 = .error e ∧
          parseBinaryLiteral pol s2 = .error e) ∨
    (parseBinaryLiteral pol s1 = .ok (false, s1) ∧
     parseBinaryLiteral pol s2 = .ok (false, s2)) ∨
    (∃ inp v ty,
      (ty = TokenType.literalInt64 ∨ ty = TokenType.literalInt32) ∧
      parseBinaryLiteral pol s1 =
        .ok (true,
          { s1 with input := inp, literalIntValue := v, literalType := ty }) ∧
      parseBinaryLiteral pol s2 =
        .ok (true,
          { s2 with input := inp, literalIntValue := v, literalType := ty })) := by
  cases ha : advanceIf [[48, 98], [48, 66]] s1.input with
  | none =>
    have ha2 : advanceIf [[48, 98], [48, 66]] s2.input = none := hin ▸ ha
    exact Or.inr (Or.inl ⟨by simp [parseBinaryLiteral, ha],
      by simp [parseBinaryLiteral, ha2]⟩)
  | some tt =>
    have ha2 : advanceIf [[48, 98], [48, 66]] s2.input = some tt := hin ▸ ha
    rcases parseIntegerWithBase_shape 2 binDigitFn pol s1 s2 tt with
      ⟨e, e1, e2⟩ | ⟨f1, f2⟩ | ⟨inp, v, ty, hty, k1, k2⟩
    · exact Or.inl ⟨e, by simp [parseBinaryLiteral, ha, e1],
        by simp [parseBinaryLiteral, ha2, e2]⟩
    · exact Or.inr (Or.inl ⟨by simp [parseBinaryLiteral, ha, f1],
        by simp [parseBinaryLiteral, ha2, f2]⟩)
    · exact Or.inr (Or.inr ⟨inp, v, ty, hty,
        by simp [parseBinaryLiteral, ha, k1],
        by simp [parseBinaryLiteral, ha2, k2]⟩)

theorem parseDecimalLiteral_shape (pol : Policy) (s1 s2 : St)
    (hin : s1.input = s2.input) :
    (∃ e, parseDecimalLiteral pol s1 = .error e ∧
          parseDecimalLiteral pol s2 = .error e) ∨
    (parseDecimalLiteral pol s1 = .ok (false, s1) ∧
     parseDecimalLiteral pol s2 = .ok (false, s2)) ∨
    (∃ inp v ty,
      (ty = TokenType.literalInt64 ∨ ty = TokenType.literalInt32) ∧
      parseDecimalLiteral pol s1 =
        .ok (true,
          { s1 with input := inp, literalIntValue := v, literalType := ty }) ∧
      parseDecimalLiteral pol s2 =
        .ok (true,
          { s2 with input := inp, literalIntValue := v, literalType := ty })) := by
  have h2 : parseDecimalLiteral pol s2 =
      parseIntegerWithBase 10 decDigitFn pol s2 s1.input := by
    rw [parseDecimalLiteral, hin]
  rcases parseIntegerWithBase_shape 10 decDigitFn pol s1 s2 s1.input with
    ⟨e, e1, e2⟩ | ⟨f1, f2⟩ | ⟨inp, v, ty, hty, k1, k2⟩
  · exact Or.inl ⟨e, e1, by rw [h2, e2]⟩
  · exact Or.inr (Or.inl ⟨f1, by rw [h2, f2]⟩)
  · exact Or.inr (Or.inr ⟨inp, v, ty, hty, k1, by rw [h2, k2]⟩)

theorem parseOctalLiteral_shape (pol : Policy) (s1 s2 : St)
    (hin : s1.input = s2.input) :
    (∃ e, parseOctalLiteral pol s1 = .error e ∧
          parseOctalLiteral pol s2 = .error e) ∨
    (parseOctalLiteral pol s1 = .ok (false, s1) ∧
     parseOctalLiteral pol s2 = .ok (false, s2)) ∨
    (∃ s1x s2x, parseOctalLiteral pol s1 = .ok (true, s1x) ∧
      parseOctalLiteral pol s2 = .ok (true, s2x)) := by
  by_cases hc : (peek s1.input == 48 && isDigit s1.input.tail) = true
  · have hc2 : (peek s2.input == 48 && isDigit s2.input.tail) = true :=
      hin ▸ hc
    have e1 : parseOctalLiteral pol s1 =
        parseIntegerWithBase 8 octDigitFn pol s1 s1.input := by
      simp [parseOctalLiteral, hc]
    have e2 : parseOctalLiteral pol s2 =
        parseIntegerWithBase 8 octDigitFn pol s2 s1.input := by
      simp [parseOctalLiteral, hc2, hin]
    rcases parseIntegerWithBase_shape 8 octDigitFn pol s1 s2 s1.input with
      ⟨e, k1, k2⟩ | ⟨f1, f2⟩ | ⟨inp, v, ty, hty, k1, k2⟩
    · exact Or.inl ⟨e, by rw [e1, k1], by rw [e2, k2]⟩
    · exact Or.inr (Or.inl ⟨by rw [e1, f1], by rw [e2, f2]⟩)
    · exact Or.inr (Or.inr ⟨_, _, by rw [e1, k1], by rw [e2, k2]⟩)
  · have hc2 : (peek s2.input == 48 && isDigit s2.input.tail) = false := by
      rw [← hin]
      simpa using hc
    refine Or.inr (Or.inl ⟨?_, ?_⟩)
    · simp only [parseOctalLiteral]
      rw [if_neg hc]
    · exact parseOctalLiteral_noShape pol s2 hc2

/-- Proof infrastructure: the float recogniser's decision — `none` for
rejection, `some rest` for the cursor after the recognised span — computed
from the scanned text alone (mirrors the branching of `parseFloatLiteral`). -/
def floatRest (t : Input) : Option Input :=
  let t1 := t.dropWhile isDigitChar
  let n1 := (t.takeWhile isDigitChar).length
  let hasPoint := peek t1 == 46
  let t2 := if hasPoint then (t1.drop 1).dropWhile isDigitChar else t1
  let numDigits := n1 + if hasPoint then ((t1.drop 1).takeWhile isDigitChar).length else 0
  if numDigits == 0 then none
  else
    let hasExponent := peek t2 == 101 || peek t2 == 69
    if hasExponent then
      let t3 := t2.drop 1
      let t4 := if peek t3 == 43 || peek t3 == 45 then t3.drop 1 else t3
      if ! isDigit t4 then none
      else some (t4.dropWhile isDigitChar)
    else if ! hasPoint then none
    else some t2

theorem parseFloatLiteral_eq_plan (pol : Policy) (s : St) :
    parseFloatLiteral pol s =
      match floatRest s.input with
      | none => .ok (false, s)
      | some rest => floatFinish pol s rest := by
  unfold parseFloatLiteral floatRest
  dsimp only
  split_ifs <;> rfl

theorem floatFinish_shape (pol : Policy) (s1 s2 : St) (rest : Input)
    (hin : s1.input = s2.input) :
    (∃ e, floatFinish pol s1 rest = .error e ∧
          floatFinish pol s2 rest = .error e) ∨
    (∃ inp dv ty,
      (ty = TokenType.literalFloat64 ∨ ty = TokenType.literalFloat32) ∧
      floatFinish pol s1 rest =
        .ok (true,
          { s1 with input := inp, literalDoubleValue := dv,
                    literalType := ty }) ∧
      floatFinish pol s2 rest =
        .ok (true,
          { s2 with input := inp, literalDoubleValue := dv,
                    literalType := ty })) := by
  by_cases hch : (isDigit (parseSuffixForFloatLiteral rest).1 ||
      pol.isIdentifierBody (peek (parseSuffixForFloatLiteral rest).1)) = true
  · refine Or.inl ⟨Err.unrecognisedLiteralSuffix, ?_, ?_⟩ <;>
      simp [floatFinish, checkCharacterImmediatelyAfterLiteral, hch]
  · refine Or.inr ⟨(parseSuffixForFloatLiteral rest).1,
      stodQ (s1.input.take (s1.input.length - rest.length)),
      (parseSuffixForFloatLiteral rest).2,
      parseSuffixForFloatLiteral_type rest, ?_, ?_⟩
    · simp [floatFinish, checkCharacterImmediatelyAfterLiteral, hch]
    · have h2 : floatFinish pol s2 rest =
          .ok (true,
            { s2 with
              input := (parseSuffixForFloatLiteral rest).1,
              literalDoubleValue :=
                stodQ (s2.input.take (s2.input.length - rest.length)),
              literalType := (parseSuffixForFloatLiteral rest).2 }) := by
        simp [floatFinish, checkCharacterImmediatelyAfterLiteral, hch]
      rw [hin]
      exact h2

theorem parseFloatLiteral_shape (pol : Policy) (s1 s2 : St)
    (hin : s1.input = s2.input) :
    (∃ e, parseFloatLiteral pol s1 = .error e ∧
          parseFloatLiteral pol s2 = .error e) ∨
    (parseFloatLiteral pol s1 = .ok (false, s1) ∧
     parseFloatLiteral pol s2 = .ok (false, s2)) ∨
    (∃ inp dv ty,
      (ty = TokenType.literalFloat64 ∨ ty = TokenType.literalFloat32) ∧
      parseFloatLiteral pol s1 =
        .ok (true,
          { s1 with input := inp, literalDoubleValue := dv,
                    literalType := ty }) ∧
      parseFloatLiteral pol s2 =
        .ok (true,
          { s2 with input := inp, literalDoubleValue := dv,
                    literalType := ty })) := by
  have e1 := parseFloatLiteral_eq_plan pol s1
  have e2 := parseFloatLiteral_eq_plan pol s2
  rw [← hin] at e2
  cases hfr : floatRest s1.input with
  | none =>
    rw [hfr] at e1 e2
    exact Or.inr (Or.inl ⟨e1, e2⟩)
  | some rest =>
    rw [hfr] at e1 e2
    rcases floatFinish_shape pol s1 s2 rest hin with
      ⟨e, k1, k2⟩ | ⟨inp, dv, ty, hty, k1, k2⟩
    · exact Or.inl ⟨e, by rw [e1]; exact k1, by rw [e2]; exact k2⟩
    · exact Or.inr (Or.inr ⟨inp, dv, ty, hty, by rw [e1]; exact k1,
        by rw [e2]; exact k2⟩)

theorem parseStringLiteral_shape (pol : Policy) (q : Nat) (s1 s2 : St)
    (hin : s1.input = s2.input) :
    (∃ e, parseStringLiteral pol q s1 = .error e ∧
          parseStringLiteral pol q s2 = .error e) ∨
    (parseStringLiteral pol q s1 = .ok (false, s1) ∧
     parseStringLiteral pol q s2 = .ok (false, s2)) ∨
    (∃ inp str,
      parseStringLiteral pol q s1 =
        .ok (true, { s1 with input := inp, currentStringValue := str }) ∧
      parseStringLiteral pol q s2 =
        .ok (true, { s2 with input := inp, currentStringValue := str })) := by
  by_cases hq : (q != 34 && q != 39) = true
  · exact Or.inr (Or.inl ⟨by simp [parseStringLiteral, hq],
      by simp [parseStringLiteral, hq]⟩)
  · have hq2 : (q != 34 && q != 39) = false := by
      simp only [Bool.not_eq_true] at hq
      exact hq
    cases hl : strLoop q s1.input.tail [] with
    | error e =>
      have hl2 : strLoop q s2.input.tail [] = .error e := by
        rw [← hin]
        exact hl
      refine Or.inl ⟨e, ?_, ?_⟩ <;>
        simp [parseStringLiteral, hq2, hl, hl2]
    | ok pr =>
      obtain ⟨inp, str⟩ := pr
      have hl2 : strLoop q s2.input.tail [] = .ok (inp, str) := by
        rw [← hin]
        exact hl
      by_cases hch : (isDigit inp || pol.isIdentifierBody (peek inp)) = true
      · refine Or.inl ⟨Err.unrecognisedLiteralSuffix, ?_, ?_⟩ <;>
          simp [parseStringLiteral, hq2, hl, hl2,
            checkCharacterImmediatelyAfterLiteral, hch]
      · refine Or.inr (Or.inr ⟨inp, str, ?_, ?_⟩) <;>
          simp [parseStringLiteral, hq2, hl, hl2,
            checkCharacterImmediatelyAfterLiteral, hch]

theorem checkIntLiteralRange_shape (b : Bool) (s1 s2 : St)
    (hty : s1.literalType = s2.literalType)
    (hv : s1.literalIntValue = s2.literalIntValue) :
    (∃ e, checkIntLiteralRange b s1 = .error e ∧
          checkIntLiteralRange b s2 = .error e) ∨
    (checkIntLiteralRange b s1 = .ok (s1.literalType, s1) ∧
     checkIntLiteralRange b s2 = .ok (s2.literalType, s2)) := by
  by_cases c1 : (s1.literalType == TokenType.literalInt32) = true
  · have c2 : (s2.literalType == TokenType.literalInt32) = true := by
      rw [← hty]
      exact c1
    by_cases d1 : (b && decide (s1.literalIntValue > 2147483648)) = true
    · have d2 : (b && decide (s2.literalIntValue > 2147483648)) = true := by
        rw [← hv]
        exact d1
      exact Or.inl ⟨.integerLiteralTooLow,
        by simp only [checkIntLiteralRange, c1, if_true, d1],
        by simp only [checkIntLiteralRange, c2, if_true, d2]⟩
    · have d2 : (b && decide (s2.literalIntValue > 2147483648)) = false := by
        rw [← hv]
        simpa using d1
      have d1f : (b && decide (s1.literalIntValue > 2147483648)) = false := by
        simpa using d1
      by_cases e1 : (!b && decide (s1.literalIntValue > 2147483647)) = true
      · have e2 : (!b && decide (s2.literalIntValue > 2147483647)) = true := by
          rw [← hv]
          exact e1
        exact Or.inl ⟨.integerLiteralTooLarge,
          by simp only [checkIntLiteralRange, c1, if_true, d1f,
            Bool.false_eq_true, if_false, e1],
          by simp only [checkIntLiteralRange, c2, if_true, d2,
            Bool.false_eq_true, if_false, e2]⟩
      · have e2 : (!b && decide (s2.literalIntValue > 2147483647)) = false := by
          rw [← hv]
          simpa using e1
        have e1f : (!b && decide (s1.literalIntValue > 2147483647)) = false := by
          simpa using e1
        exact Or.inr
          ⟨by simp only [checkIntLiteralRange, c1, if_true, d1f,
              Bool.false_eq_true, if_false, e1f],
           by simp only [checkIntLiteralRange, c2, if_true, d2,
              Bool.false_eq_true, if_false, e2]⟩
  · have c2 : (s2.literalType == TokenType.literalInt32) = false := by
      rw [← hty]
      simpa using c1
    have c1f : (s1.literalType == TokenType.literalInt32) = false := by
      simpa using c1
    exact Or.inr
      ⟨by simp only [checkIntLiteralRange, c1f, Bool.false_eq_true, if_false],
       by simp only [checkIntLiteralRange, c2, Bool.false_eq_true, if_false]⟩

/-- The numeric-literal dispatcher writes the integer fields or the float
fields with values depending only on the scanned text; errors and the chosen
token are likewise functions of the text alone. -/
theorem parseNumericLiteral_frame (pol : Policy) (b : Bool) (s1 s2 : St)
    (hin : s1.input = s2.input) :
    (∃ e, parseNumericLiteral pol b s1 = .error e ∧
          parseNumericLiteral pol b s2 = .error e) ∨
    (∃ inp v ty,
      (ty = TokenType.literalInt64 ∨ ty = TokenType.literalInt32) ∧
      parseNumericLiteral pol b s1 =
        .ok (ty,
          { s1 with input := inp, literalIntValue := v, literalType := ty }) ∧
      parseNumericLiteral pol b s2 =
        .ok (ty,
          { s2 with input := inp, literalIntValue := v, literalType := ty })) ∨
    (∃ inp dv ty,
      (ty = TokenType.literalFloat64 ∨ ty = TokenType.literalFloat32) ∧
      parseNumericLiteral pol b s1 =
        .ok (ty,
          { s1 with input := inp, literalDoubleValue := dv,
                    literalType := ty }) ∧
      parseNumericLiteral pol b s2 =
        .ok (ty,
          { s2 with input := inp, literalDoubleValue := dv,
                    literalType := ty })) := by
  have hIntCase : ∀ (inp : Input) (v : Int) (ty : TokenType),
      (ty = TokenType.literalInt64 ∨ ty = TokenType.literalInt32) →
      (checkIntLiteralRange b
          { s1 with input := inp, literalIntValue := v, literalType := ty } =
          parseNumericLiteral pol b s1) →
      (checkIntLiteralRange b
          { s2 with input := inp, literalIntValue := v, literalType := ty } =
          parseNumericLiteral pol b s2) →
      (∃ e, parseNumericLiteral pol b s1 = .error e ∧
            parseNumericLiteral pol b s2 = .error e) ∨
      (∃ inp2 v2 ty2,
        (ty2 = TokenType.literalInt64 ∨ ty2 = TokenType.literalInt32) ∧
        parseNumericLiteral pol b s1 =
          .ok (ty2, { s1 with input := inp2, literalIntValue := v2,
                              literalType := ty2 }) ∧
        parseNumericLiteral pol b s2 =
          .ok (ty2, { s2 with input := inp2, literalIntValue := v2,
                              literalType := ty2 })) ∨
      (∃ inp2 dv2 ty2,
        (ty2 = TokenType.literalFloat64 ∨ ty2 = TokenType.literalFloat32) ∧
        parseNumericLiteral pol b s1 =
          .ok (ty2, { s1 with input := inp2, literalDoubleValue := dv2,
                              literalType := ty2 }) ∧
        parseNumericLiteral pol b s2 =
          .ok (ty2, { s2 with input := inp2, literalDoubleValue := dv2,
                              literalType := ty2 })) := by
    intro inp v ty hty q1 q2
    rcases checkIntLiteralRange_shape b
        { s1 with input := inp, literalIntValue := v, literalType := ty }
        { s2 with input := inp, literalIntValue := v, literalType := ty }
        rfl rfl with ⟨e, r1, r2⟩ | ⟨r1, r2⟩
    · exact Or.inl ⟨e, by rw [← q1, r1], by rw [← q2, r2]⟩
    · refine Or.inr (Or.inl ⟨inp, v, ty, hty, ?_, ?_⟩)
      · rw [← q1, r1]
      · rw [← q2, r2]
  rcases parseHexLiteral_shape pol s1 s2 hin with
    ⟨e, k1, k2⟩ | ⟨k1, k2⟩ | ⟨inp, v, ty, hty, k1, k2⟩
  · exact Or.inl ⟨e, by simp only [parseNumericLiteral, k1],
      by simp only [parseNumericLiteral, k2]⟩
  · -- hex failed: float is next
    rcases parseFloatLiteral_shape pol s1 s2 hin with
      ⟨e, f1, f2⟩ | ⟨f1, f2⟩ | ⟨inp, dv, ty, hty, f1, f2⟩
    · exact Or.inl ⟨e, by simp only [parseNumericLiteral, k1, f1],
        by simp only [parseNumericLiteral, k2, f2]⟩
    · -- float failed: octal
      rcases parseOctalLiteral_shape pol s1 s2 hin with
        ⟨e, o1, o2⟩ | ⟨o1, o2⟩ | ⟨s1x, s2x, o1, o2⟩
      · exact Or.inl ⟨e, by simp only [parseNumericLiteral, k1, f1, o1],
          by simp only [parseNumericLiteral, k2, f2, o2]⟩
      · -- octal failed: binary
        rcases parseBinaryLiteral_shape pol s1 s2 hin with
          ⟨e, n1, n2⟩ | ⟨n1, n2⟩ | ⟨inp, v, ty, hty, n1, n2⟩
        · exact Or.inl ⟨e,
            by simp only [parseNumericLiteral, k1, f1, o1, n1],
            by simp only [parseNumericLiteral, k2, f2, o2, n2]⟩
        · -- binary failed: decimal
          rcases parseDecimalLiteral_shape pol s1 s2 hin with
            ⟨e, m1, m2⟩ | ⟨m1, m2⟩ | ⟨inp, v, ty, hty, m1, m2⟩
          · exact Or.inl ⟨e,
              by simp only [parseNumericLiteral, k1, f1, o1, n1, m1],
              by simp only [parseNumericLiteral, k2, f2, o2, n2, m2]⟩
          · exact Or.inl ⟨.errorInNumericLiteral,
              by simp only [parseNumericLiteral, k1, f1, o1, n1, m1],
              by simp only [parseNumericLiteral, k2, f2, o2, n2, m2]⟩
          · exact hIntCase inp v ty hty
              (by simp only [parseNumericLiteral, k1, f1, o1, n1, m1])
              (by simp only [parseNumericLiteral, k2, f2, o2, n2, m2])
        · exact hIntCase inp v ty hty
            (by simp only [parseNumericLiteral, k1, f1, o1, n1])
            (by simp only [parseNumericLiteral, k2, f2, o2, n2])
      · exact Or.inl ⟨.noOctalLiterals,
          by simp only [parseNumericLiteral, k1, f1, o1],
          by simp only [parseNumericLiteral, k2, f2, o2]⟩
    · refine Or.inr (Or.inr ⟨inp, dv, ty, hty, ?_, ?_⟩)
      · simp only [parseNumericLiteral, k1, f1]
      · simp only [parseNumericLiteral, k2, f2]
  · exact hIntCase inp v ty hty
      (by simp only [parseNumericLiteral, k1])
      (by simp only [parseNumericLiteral, k2])

theorem matchRest_frame (pol : Policy) (s1 s2 : St)
    (hin : s1.input = s2.input) (t : TokenType) (s1' : St)
    (h : matchNextToken.matchRest pol s1 = .ok (t, s1')) :
    ∃ s2', matchNextToken.matchRest pol s2 = .ok (t, s2') ∧
      s1'.locationLoc = s1.locationLoc ∧ s2'.locationLoc = s2.locationLoc ∧
      s1'.literalIntValue = s1.literalIntValue ∧
      s2'.literalIntValue = s2.literalIntValue ∧
      s1'.literalDoubleValue = s1.literalDoubleValue ∧
      s2'.literalDoubleValue = s2.literalDoubleValue ∧
      s1'.currentStringValue = s1.currentStringValue ∧
      s2'.currentStringValue = s2.currentStringValue := by
  cases hop : pol.opMatch s1.input with
  | some p =>
    obtain ⟨op, len⟩ := p
    have hop2 : pol.opMatch s2.input = some (op, len) := by
      rw [← hin]
      exact hop
    simp only [matchNextToken.matchRest, hop] at h
    obtain ⟨ht, hs⟩ : op = t ∧ ({ s1 with input := s1.input.drop len } : St) = s1' := by
      injection h with h1
      injection h1 with ht hs
      exact ⟨ht, hs⟩
    subst ht
    subst hs
    exact ⟨{ s2 with input := s2.input.drop len },
      by simp only [matchNextToken.matchRest, hop2],
      rfl, rfl, rfl, rfl, rfl, rfl, rfl, rfl⟩
  | none =>
    have hop2 : pol.opMatch s2.input = none := by
      rw [← hin]
      exact hop
    simp only [matchNextToken.matchRest, hop] at h
    by_cases h95 :
        (peek s1.input == 95 && pol.isIdentifierBody (peek s1.input.tail)) = true
    · rw [if_pos h95] at h
      exact absurd h (by simp)
    · rw [if_neg h95] at h
      by_cases hz : (peek s1.input != 0) = true
      · rw [if_pos hz] at h
        exact absurd h (by simp)
      · rw [if_neg hz] at h
        obtain ⟨ht, hs⟩ : TokenType.eof = t ∧ s1 = s1' := by
          injection h with h1
          injection h1 with ht hs
          exact ⟨ht, hs⟩
        subst ht
        subst hs
        have h95b : ¬ ((peek s2.input == 95 &&
            pol.isIdentifierBody (peek s2.input.tail)) = true) := by
          rw [← hin]
          exact h95
        have hzb : ¬ ((peek s2.input != 0) = true) := by
          rw [← hin]
          exact hz
        refine ⟨s2, ?_, rfl, rfl, rfl, rfl, rfl, rfl, rfl, rfl⟩
        simp only [matchNextToken.matchRest, hop2]
        rw [if_neg h95b, if_neg hzb]

/-- `matchNextToken` on two states over the same text: the same token comes
back, `location` is untouched, and each literal-value field is either left
alone on both sides or written with the same text-determined value. -/
theorem matchNextToken_frame (pol : Policy) (s1 s2 : St)
    (hin : s1.input = s2.input) (t : TokenType) (s1' : St)
    (h : matchNextToken pol s1 = .ok (t, s1')) :
    ∃ s2', matchNextToken pol s2 = .ok (t, s2') ∧
      s1'.locationLoc = s1.locationLoc ∧ s2'.locationLoc = s2.locationLoc ∧
      (s1'.literalIntValue = s1.literalIntValue ∧
         s2'.literalIntValue = s2.literalIntValue ∨
       s1'.literalIntValue = s2'.literalIntValue) ∧
      (s1'.literalDoubleValue = s1.literalDoubleValue ∧
         s2'.literalDoubleValue = s2.literalDoubleValue ∨
       s1'.literalDoubleValue = s2'.literalDoubleValue) ∧
      (s1'.currentStringValue = s1.currentStringValue ∧
         s2'.currentStringValue = s2.currentStringValue ∨
       s1'.currentStringValue = s2'.currentStringValue) := by
  by_cases hid : pol.isIdentifierStart (peek s1.input) = true
  · have hid2 : pol.isIdentifierStart (peek s2.input) = true := by
      rw [← hin]
      exact hid
    simp only [matchNextToken] at h ⊢
    rw [if_pos hid] at h
    rw [if_pos hid2]
    cases hil : identLoop pol s1.input 1 with
    | error e =>
      rw [hil] at h
      exact absurd h (by simp)
    | ok p =>
      obtain ⟨endPos, len⟩ := p
      have hil2 : identLoop pol s2.input 1 = .ok (endPos, len) := by
        rw [← hin]
        exact hil
      simp only [hil] at h
      simp only [hil2]
      cases hkw : pol.keywordMatch len s1.input with
      | some kw =>
        have hkw2 : pol.keywordMatch len s2.input = some kw := by
          rw [← hin]
          exact hkw
        simp only [hkw] at h
        simp only [hkw2]
        obtain ⟨ht, hs⟩ : kw = t ∧
            ({ s1 with input := s1.input.drop len } : St) = s1' := by
          injection h with h1
          injection h1 with ht hs
          exact ⟨ht, hs⟩
        subst ht
        subst hs
        exact ⟨{ s2 with input := s2.input.drop len }, rfl, rfl, rfl,
          Or.inl ⟨rfl, rfl⟩, Or.inl ⟨rfl, rfl⟩, Or.inl ⟨rfl, rfl⟩⟩
      | none =>
        have hkw2 : pol.keywordMatch len s2.input = none := by
          rw [← hin]
          exact hkw
        simp only [hkw] at h
        simp only [hkw2]
        obtain ⟨ht, hs⟩ : TokenType.identifier = t ∧
            ({ s1 with input := endPos,
                       currentStringValue := s1.input.take len } : St) = s1' := by
          injection h with h1
          injection h1 with ht hs
          exact ⟨ht, hs⟩
        subst ht
        subst hs
        refine ⟨{ s2 with input := endPos,
                          currentStringValue := s2.input.take len },
          rfl, rfl, rfl, Or.inl ⟨rfl, rfl⟩, Or.inl ⟨rfl, rfl⟩, Or.inr ?_⟩
        show s1.input.take len = s2.input.take len
        rw [hin]
  · have hidn : ¬ (pol.isIdentifierStart (peek s2.input) = true) := by
      rw [← hin]
      exact hid
    simp only [matchNextToken] at h ⊢
    rw [if_neg hid] at h
    rw [if_neg hidn]
    by_cases hdg : isDigit s1.input = true
    · have hdg2 : isDigit s2.input = true := by
        rw [← hin]
        exact hdg
      rw [if_pos hdg] at h
      rw [if_pos hdg2]
      rcases parseNumericLiteral_frame pol false s1 s2 hin with
        ⟨e, k1, k2⟩ | ⟨inp, v, ty, hty, k1, k2⟩ | ⟨inp, dv, ty, hty, k1, k2⟩
      · rw [k1] at h
        exact absurd h (by simp)
      · rw [k1] at h
        obtain ⟨ht, hs⟩ : ty = t ∧
            ({ s1 with input := inp, literalIntValue := v,
                       literalType := ty } : St) = s1' := by
          injection h with h1
          injection h1 with ht hs
          exact ⟨ht, hs⟩
        subst ht
        subst hs
        exact ⟨{ s2 with input := inp, literalIntValue := v,
                         literalType := ty },
          k2, rfl, rfl, Or.inr rfl, Or.inl ⟨rfl, rfl⟩, Or.inl ⟨rfl, rfl⟩⟩
      · rw [k1] at h
        obtain ⟨ht, hs⟩ : ty = t ∧
            ({ s1 with input := inp, literalDoubleValue := dv,
                       literalType := ty } : St) = s1' := by
          injection h with h1
          injection h1 with ht hs
          exact ⟨ht, hs⟩
        subst ht
        subst hs
        exact ⟨{ s2 with input := inp, literalDoubleValue := dv,
                         literalType := ty },
          k2, rfl, rfl, Or.inl ⟨rfl, rfl⟩, Or.inr rfl, Or.inl ⟨rfl, rfl⟩⟩
    · have hdgn : ¬ (isDigit s2.input = true) := by
        rw [← hin]
        exact hdg
      rw [if_neg hdg] at h
      rw [if_neg hdgn]
      by_cases hmn : (peek s1.input == 45 && isDigit s1.input.tail) = true
      · have hmn2 : (peek s2.input == 45 && isDigit s2.input.tail) = true := by
          rw [← hin]
          exact hmn
        rw [if_pos hmn] at h
        rw [if_pos hmn2]
        have hinT : ({ s1 with input := s1.input.tail } : St).input =
            ({ s2 with input := s2.input.tail } : St).input := by
          show s1.input.tail = s2.input.tail
          rw [hin]
        rcases parseNumericLiteral_frame pol true
            { s1 with input := s1.input.tail }
            { s2 with input := s2.input.tail } hinT with
          ⟨e, k1, k2⟩ | ⟨inp, v, ty, hty, k1, k2⟩ | ⟨inp, dv, ty, hty, k1, k2⟩
        · simp only [k1] at h
          exact absurd h (by simp)
        · simp only [k1] at h
          have hc : (ty == TokenType.literalInt32 ||
              ty == TokenType.literalInt64) = true := by
            rcases hty with hh | hh
            · subst hh
              rfl
            · subst hh
              rfl
          rw [if_pos hc] at h
          obtain ⟨ht, hs⟩ : ty = t ∧
              ({ s1 with input := inp, literalIntValue := int64Neg v,
                         literalType := ty } : St) = s1' := by
            injection h with h1
            injection h1 with ht hs
            exact ⟨ht, hs⟩
          subst ht
          subst hs
          refine ⟨{ s2 with input := inp, literalIntValue := int64Neg v,
                            literalType := ty }, ?_, rfl, rfl, Or.inr rfl,
            Or.inl ⟨rfl, rfl⟩, Or.inl ⟨rfl, rfl⟩⟩
          simp only [k2]
          rw [if_pos hc]
        · simp only [k1] at h
          have hcn : ¬ ((ty == TokenType.literalInt32 ||
              ty == TokenType.literalInt64) = true) := by
            rcases hty with hh | hh
            · subst hh
              exact Bool.false_ne_true
            · subst hh
              exact Bool.false_ne_true
          rw [if_neg hcn] at h
          obtain ⟨ht, hs⟩ : ty = t ∧
              ({ s1 with input := inp, literalDoubleValue := -dv,
                         literalType := ty } : St) = s1' := by
            injection h with h1
            injection h1 with ht hs
            exact ⟨ht, hs⟩
          subst ht
          subst hs
          refine ⟨{ s2 with input := inp, literalDoubleValue := -dv,
                            literalType := ty }, ?_, rfl, rfl,
            Or.inl ⟨rfl, rfl⟩, Or.inr rfl, Or.inl ⟨rfl, rfl⟩⟩
          simp only [k2]
          rw [if_neg hcn]
      · have hmnn : ¬ ((peek s2.input == 45 && isDigit s2.input.tail) = true) := by
          rw [← hin]
          exact hmn
        rw [if_neg hmn] at h
        rw [if_neg hmnn]
        have hpk : peek s2.input = peek s1.input := by
          rw [hin]
        rw [hpk]
        rcases parseStringLiteral_shape pol (peek s1.input) s1 s2 hin with
          ⟨e, p1, p2⟩ | ⟨p1, p2⟩ | ⟨inp, str, p1, p2⟩
        · simp only [p1] at h
          exact absurd h (by simp)
        · simp only [p1] at h
          simp only [p2]
          by_cases h46 : (peek s1.input == 46) = true
          · have h462 : (peek s2.input == 46) = true := by
              rw [← hin]
              exact h46
            rw [if_pos h46] at h
            rw [if_pos h462]
            rcases parseFloatLiteral_shape pol s1 s2 hin with
              ⟨e, f1, f2⟩ | ⟨f1, f2⟩ | ⟨inp, dv, ty, hty, f1, f2⟩
            · simp only [f1] at h
              exact absurd h (by simp)
            · simp only [f1] at h
              obtain ⟨s2', g2, l1, l2, a1, a2, b1, b2, c1, c2⟩ :=
                matchRest_frame pol s1 s2 hin t s1' h
              refine ⟨s2', ?_, l1, l2, Or.inl ⟨a1, a2⟩, Or.inl ⟨b1, b2⟩,
                Or.inl ⟨c1, c2⟩⟩
              simp only [f2]
              exact g2
            · simp only [f1] at h
              obtain ⟨ht, hs⟩ : ty = t ∧
                  ({ s1 with input := inp, literalDoubleValue := dv,
                             literalType := ty } : St) = s1' := by
                injection h with h1
                injection h1 with ht hs
                exact ⟨ht, hs⟩
              subst ht
              subst hs
              refine ⟨{ s2 with input := inp, literalDoubleValue := dv,
                                literalType := ty }, ?_, rfl, rfl,
                Or.inl ⟨rfl, rfl⟩, Or.inr rfl, Or.inl ⟨rfl, rfl⟩⟩
              simp only [f2]
          · have h46n : ¬ ((peek s2.input == 46) = true) := by
              rw [← hin]
              exact h46
            rw [if_neg h46] at h
            rw [if_neg h46n]
            obtain ⟨s2', g2, l1, l2, a1, a2, b1, b2, c1, c2⟩ :=
              matchRest_frame pol s1 s2 hin t s1' h
            exact ⟨s2', g2, l1, l2, Or.inl ⟨a1, a2⟩, Or.inl ⟨b1, b2⟩,
              Or.inl ⟨c1, c2⟩⟩
        · simp only [p1] at h
          simp only [p2]
          obtain ⟨ht, hs⟩ : TokenType.literalString = t ∧
              ({ s1 with input := inp,
                         currentStringValue := str } : St) = s1' := by
            injection h with h1
            injection h1 with ht hs
            exact ⟨ht, hs⟩
          subst ht
          subst hs
          exact ⟨{ s2 with input := inp, currentStringValue := str },
            rfl, rfl, rfl, Or.inl ⟨rfl, rfl⟩, Or.inl ⟨rfl, rfl⟩, Or.inr rfl⟩

/-- C10: after any successful `skip`, calling `resetPosition` with the
position from `getCurrentTokeniserPosition` re-scans the same token:
`currentType`, `literalIntValue`, `literalDoubleValue` and
`currentStringValue` afterwards equal their values before the call. -/
theorem claim_C10_reset_roundtrip (pol : Policy) (s : St) (last : TokenType)
    (s1 : St) (h : skip pol s = .ok (last, s1)) :
    ∃ last2 s2,
      resetPosition pol (getCurrentTokeniserPosition s1) s1 =
        .ok (last2, s2) ∧
      s2.currentType = s1.currentType ∧
      s2.literalIntValue = s1.literalIntValue ∧
      s2.literalDoubleValue = s1.literalDoubleValue ∧
      s2.currentStringValue = s1.currentStringValue := by
  simp only [skip] at h
  cases hws : skipWS s.input with
  | error e =>
    rw [hws] at h
    exact absurd h (by simp)
  | ok inp =>
    simp only [hws] at h
    cases hm : matchNextToken pol { s with input := inp, locationLoc := inp } with
    | error e =>
      rw [hm] at h
      exact absurd h (by simp)
    | ok p =>
      obtain ⟨tk, m1⟩ := p
      simp only [hm] at h
      obtain ⟨hlast, hs1⟩ : s.currentType = last ∧
          ({ m1 with currentType := tk } : St) = s1 := by
        injection h with h1
        injection h1 with hlast hs1
        exact ⟨hlast, hs1⟩
      subst hs1
      have hws2 : skipWS inp = .ok inp := skipWS_ok_idem _ _ hws
      obtain ⟨s2', g2, l1, l2, ai, ad, ac⟩ :=
        matchNextToken_frame pol { s with input := inp, locationLoc := inp }
          { { { m1 with currentType := tk } with input := inp } with
              input := inp, locationLoc := inp } rfl tk m1 hm
      have hloc : m1.locationLoc = inp := l1
      refine ⟨({ m1 with currentType := tk } : St).currentType,
        { s2' with currentType := tk }, ?_, rfl, ?_, ?_, ?_⟩
      · simp only [resetPosition, getCurrentTokeniserPosition]
        rw [hloc]
        simp only [skip, hws2, g2]
      · rcases ai with ⟨u1, u2⟩ | e
        · exact u2
        · exact e.symm
      · rcases ad with ⟨u1, u2⟩ | e
        · exact u2
        · exact e.symm
      · rcases ac with ⟨u1, u2⟩ | e
        · exact u2
        · exact e.symm

theorem claim_C10_reset_roundtrip_witness :
    skip defaultPolicy (mkSt [52, 50]) =
      .ok (TokenType.null,
        { input := [], locationLoc := [52, 50],
          currentType := TokenType.literalInt32, literalIntValue := 42,
          literalDoubleValue := 0, currentStringValue := [],
          literalType := TokenType.literalInt32 }) ∧
    (∃ last2 s2,
      resetPosition defaultPolicy
          (getCurrentTokeniserPosition
            { input := [], locationLoc := [52, 50],
              currentType := TokenType.literalInt32, literalIntValue := 42,
              literalDoubleValue := 0, currentStringValue := [],
              literalType := TokenType.literalInt32 })
          { input := [], locationLoc := [52, 50],
            currentType := TokenType.literalInt32, literalIntValue := 42,
            literalDoubleValue := 0, currentStringValue := [],
            literalType := TokenType.literalInt32 } = .ok (last2, s2) ∧
      s2.currentType = TokenType.literalInt32 ∧
      s2.literalIntValue = 42 ∧
      s2.literalDoubleValue = 0 ∧
      s2.currentStringValue = []) := by
  have hws42 : skipWS ([52, 50] : Input) = .ok [52, 50] := by
    rw [skipWS]
    rfl
  have hsk : skip defaultPolicy (mkSt [52, 50]) =
      .ok (TokenType.null,
        { input := [], locationLoc := [52, 50],
          currentType := TokenType.literalInt32, literalIntValue := 42,
          literalDoubleValue := 0, currentStringValue := [],
          literalType := TokenType.literalInt32 }) := by
    simp only [skip, mkSt, hws42]
    decide
  exact ⟨hsk, claim_C10_reset_roundtrip defaultPolicy (mkSt [52, 50])
    TokenType.null _ hsk⟩

end Soul
